import Mathlib

/-!
Verification development for the serverless-operator repository.

It embeds the OpenShift route-translation code (`MakeRoutes`, `makeRoute`,
`routeName`, `hashHost` from the `resources` package) as executable Lean
definitions, together with spec-modelled definitions for the ingress
resolver and monitoring policy whose implementations are exercised only by
the tests that ship in the repository.
-/

set_option autoImplicit false
set_option maxRecDepth 100000

namespace ServerlessOp

/-! ## Go string maps as association lists

`map[string]string` values are modelled as association lists with
replace-or-append insertion.  The code only ever reads keys, writes one
key, and unions maps, so insertion order is the only representation
choice and it is fixed here once. -/

abbrev SMap := List (String × String)

/-- Lookup in a `map[string]string`, `none` when the key is absent. -/
def smapFind : SMap → String → Option String
  | [], _ => none
  | p :: rest, key => if p.1 = key then some p.2 else smapFind rest key

/-- Go `m[k]` read: the zero value `""` when the key is absent. -/
def smapGet (m : SMap) (k : String) : String :=
  (smapFind m k).getD ""

/-- Go `_, ok := m[k]` membership test. -/
def smapHas (m : SMap) (k : String) : Bool :=
  (smapFind m k).isSome

/-- Go `m[k] = v`: replace the existing binding or append a new one. -/
def smapInsert (m : SMap) (k v : String) : SMap :=
  if smapHas m k then
    m.map (fun p => if p.1 = k then (k, v) else p)
  else
    m ++ [(k, v)]

/-- `kmeta.UnionMaps`: later maps override earlier ones. -/
def unionMaps (a b : SMap) : SMap :=
  b.foldl (fun acc p => smapInsert acc p.1 p.2) a

/-! ## SHA-256 (semantics of `crypto/sha256.Sum256`)

All words are `Nat` reduced modulo `2^32` explicitly. -/

def w32 (x : Nat) : Nat := x % 4294967296

def rotr32 (n x : Nat) : Nat := w32 ((x >>> n) ||| (x <<< (32 - n)))

def shaCh (x y z : Nat) : Nat := (x &&& y) ^^^ ((x ^^^ 4294967295) &&& z)

def shaMaj (x y z : Nat) : Nat := (x &&& y) ^^^ (x &&& z) ^^^ (y &&& z)

def bigSigma0 (x : Nat) : Nat := rotr32 2 x ^^^ rotr32 13 x ^^^ rotr32 22 x

def bigSigma1 (x : Nat) : Nat := rotr32 6 x ^^^ rotr32 11 x ^^^ rotr32 25 x

def smallSigma0 (x : Nat) : Nat := rotr32 7 x ^^^ rotr32 18 x ^^^ (x >>> 3)

def smallSigma1 (x : Nat) : Nat := rotr32 17 x ^^^ rotr32 19 x ^^^ (x >>> 10)

def shaK : List Nat :=
  [1116352408, 1899447441, 3049323471, 3921009573, 961987163, 1508970993,
   2453635748, 2870763221, 3624381080, 310598401, 607225278, 1426881987,
   1925078388, 2162078206, 2614888103, 3248222580, 3835390401, 4022224774,
   264347078, 604807628, 770255983, 1249150122, 1555081692, 1996064986,
   2554220882, 2821834349, 2952996808, 3210313671, 3336571891, 3584528711,
   113926993, 338241895, 666307205, 773529912, 1294757372, 1396182291,
   1695183700, 1986661051, 2177026350, 2456956037, 2730485921, 2820302411,
   3259730800, 3345764771, 3516065817, 3600352804, 4094571909, 275423344,
   430227734, 506948616, 659060556, 883997877, 958139571, 1322822218,
   1537002063, 1747873779, 1955562222, 2024104815, 2227730452, 2361852424,
   2428436474, 2756734187, 3204031479, 3329325298]

def shaInitH : List Nat :=
  [1779033703, 3144134277, 1013904242, 2773480762,
   1359893119, 2600822924, 528734635, 1541459225]

/-- Big-endian 8-byte encoding of the bit length. -/
def be64 (n : Nat) : List Nat :=
  [(n >>> 56) &&& 255, (n >>> 48) &&& 255, (n >>> 40) &&& 255, (n >>> 32) &&& 255,
   (n >>> 24) &&& 255, (n >>> 16) &&& 255, (n >>> 8) &&& 255, n &&& 255]

/-- FIPS 180-4 message padding to a multiple of 64 bytes. -/
def shaPad (msg : List Nat) : List Nat :=
  let L := msg.length
  let zeros := (119 - (L % 64)) % 64
  msg ++ [128] ++ List.replicate zeros 0 ++ be64 (8 * L)

/-- Big-endian 32-bit words from bytes. -/
def bytesToWords : List Nat → List Nat
  | a :: b :: c :: d :: rest =>
      ((((a <<< 8) ||| b) <<< 16) ||| ((c <<< 8) ||| d)) :: bytesToWords rest
  | _ => []

/-- Message-schedule extension: `acc` holds the words produced so far in
reverse order (at least the initial 16). -/
def extSched : Nat → List Nat → List Nat
  | 0, acc => acc
  | n + 1, acc =>
      let w2 := acc.getD 1 0
      let w7 := acc.getD 6 0
      let w15 := acc.getD 14 0
      let w16 := acc.getD 15 0
      extSched n (w32 (smallSigma1 w2 + w7 + smallSigma0 w15 + w16) :: acc)

structure ShaState where
  a : Nat
  b : Nat
  c : Nat
  d : Nat
  e : Nat
  f : Nat
  g : Nat
  hh : Nat
  deriving Repr, DecidableEq

def shaRound (st : ShaState) (kw : Nat × Nat) : ShaState :=
  let t1 := w32 (st.hh + bigSigma1 st.e + shaCh st.e st.f st.g + kw.1 + kw.2)
  let t2 := w32 (bigSigma0 st.a + shaMaj st.a st.b st.c)
  ⟨w32 (t1 + t2), st.a, st.b, st.c, w32 (st.d + t1), st.e, st.f, st.g⟩

def processChunk (hs : List Nat) (ws : List Nat) : List Nat :=
  let sched := (extSched 48 ws.reverse).reverse
  let g := fun i => hs.getD i 0
  let st0 : ShaState := ⟨g 0, g 1, g 2, g 3, g 4, g 5, g 6, g 7⟩
  let st := (shaK.zip sched).foldl shaRound st0
  [w32 (g 0 + st.a), w32 (g 1 + st.b), w32 (g 2 + st.c), w32 (g 3 + st.d),
   w32 (g 4 + st.e), w32 (g 5 + st.f), w32 (g 6 + st.g), w32 (g 7 + st.hh)]

def sha256Chunks (hs : List Nat) : List Nat → List Nat
  | w0 :: w1 :: w2 :: w3 :: w4 :: w5 :: w6 :: w7 ::
    w8 :: w9 :: w10 :: w11 :: w12 :: w13 :: w14 :: w15 :: rest =>
      sha256Chunks
        (processChunk hs [w0, w1, w2, w3, w4, w5, w6, w7, w8, w9, w10, w11, w12, w13, w14, w15])
        rest
  | _ => hs

/-- Big-endian bytes of one 32-bit word. -/
def be32 (n : Nat) : List Nat :=
  [(n >>> 24) &&& 255, (n >>> 16) &&& 255, (n >>> 8) &&& 255, n &&& 255]

/-- `sha256.Sum256`: the 32 digest bytes of a byte sequence. -/
def sha256Bytes (msg : List Nat) : List Nat :=
  ((sha256Chunks shaInitH (bytesToWords (shaPad msg))).map be32).flatten

/-! ## UTF-8 and Go `%x` hex formatting -/

/-- UTF-8 encoding of one scalar value (Go `[]byte(string)` semantics). -/
def utf8EncodeChar (c : Char) : List Nat :=
  let n := c.toNat
  if n < 128 then [n]
  else if n < 2048 then [192 ||| (n >>> 6), 128 ||| (n &&& 63)]
  else if n < 65536 then
    [224 ||| (n >>> 12), 128 ||| ((n >>> 6) &&& 63), 128 ||| (n &&& 63)]
  else
    [240 ||| (n >>> 18), 128 ||| ((n >>> 12) &&& 63),
     128 ||| ((n >>> 6) &&& 63), 128 ||| (n &&& 63)]

/-- The UTF-8 bytes of a string, as Go's `[]byte(s)` produces them. -/
def utf8Bytes (s : String) : List Nat :=
  (s.data.map utf8EncodeChar).flatten

def hexDigitChar (n : Nat) : Char :=
  if n < 10 then Char.ofNat (48 + n) else Char.ofNat (87 + n)

/-- Two lowercase hex digits of one byte. -/
def hexByte (b : Nat) : String :=
  String.mk [hexDigitChar (b / 16), hexDigitChar (b % 16)]

/-- Lowercase hex dump of a byte sequence (Go `%x` on bytes). -/
def hexOfBytes (bs : List Nat) : String :=
  String.join (bs.map hexByte)

/-- Go `fmt.Sprintf("%x", s)` for a string argument: the hex dump of the
string's UTF-8 bytes. -/
def goHexOfString (s : String) : String :=
  hexOfBytes (utf8Bytes s)

/-! ## Data model of the route-translation code

Mirrors the fields of `networkingv1alpha1.Ingress` and `routev1.Route`
that the `resources` package reads or writes.  Go `nil` maps, slices and
pointers are `Option`/empty lists.  String-typed enums stay strings with
the constants the code compares against. -/

/-- Constants from the `resources` package. -/
def TimeoutAnnotationKey : String := "haproxy.router.openshift.io/timeout"

def DisableRouteAnnotationKey : String := "serving.knative.openshift.io/disableRoute"

def EnablePassthroughRouteAnnotationKey : String := "serving.knative.openshift.io/enablePassthrough"

def HTTPPort : String := "http2"

def HTTPSPort : String := "https"

def OpenShiftIngressLabelKey : String := "serving.knative.openshift.io/ingressName"

def OpenShiftIngressNamespaceLabelKey : String := "serving.knative.openshift.io/ingressNamespace"

/-- `networking.IngressLabelKey` from the vendored knative networking package. -/
def IngressLabelKey : String := "networking.internal.knative.dev/ingress"

/-- `networking.HTTPOptionAnnotationKey` from the vendored knative networking
package; only its distinctness from the other keys matters here. -/
def HTTPOptionKey : String := "networking.knative.dev/http-option"

/-- `DefaultTimeout = fmt.Sprintf("%vs", config.DefaultMaxRevisionTimeoutSeconds)`;
the vendored knative serving config sets that constant to 600. -/
def DefaultTimeout : String := "600s"

/-- `networkingv1alpha1.IngressVisibilityClusterLocal`. -/
def visibilityClusterLocal : String := "ClusterLocal"

/-- `networkingv1alpha1.IngressVisibilityExternalIP`. -/
def visibilityExternalIP : String := "ExternalIP"

/-- `networkingv1alpha1.HTTPOptionRedirected`. -/
def httpOptionRedirected : String := "Redirected"

/-- `networkingv1alpha1.HTTPOptionEnabled`. -/
def httpOptionEnabled : String := "Enabled"

/-- OpenShift `routev1` string enum values. -/
def tlsTerminationEdge : String := "edge"

def tlsTerminationPassthrough : String := "passthrough"

def edgePolicyAllow : String := "Allow"

def edgePolicyRedirect : String := "Redirect"

def wildcardPolicyNone : String := "None"

/-- One `Status.PublicLoadBalancer.Ingress` entry; only `DomainInternal`
is read by the code. -/
structure LBIngressStatus where
  domainInternal : String
  deriving DecidableEq, Repr

/-- One `Spec.TLS` entry; the code only tests whether the list is empty. -/
structure IngressTLS where
  secretName : String
  secretNamespace : String
  deriving DecidableEq, Repr

structure IngressRule where
  hosts : List String
  visibility : String
  deriving DecidableEq, Repr

structure Ingress where
  name : String
  nspace : String
  uid : String
  labels : SMap
  annotations : Option SMap
  rules : List IngressRule
  httpOption : String
  tls : List IngressTLS
  publicLoadBalancer : Option (List LBIngressStatus)
  deriving DecidableEq, Repr

structure RoutePort where
  targetPort : String
  deriving DecidableEq, Repr

structure RouteTargetReference where
  kind : String
  name : String
  weight : Int
  deriving DecidableEq, Repr

structure RouteTLSConfig where
  termination : String
  insecureEdgeTerminationPolicy : String
  deriving DecidableEq, Repr

structure RouteSpec where
  host : String
  port : RoutePort
  /-- The `To` target reference (`to` is reserved in Lean). -/
  toRef : RouteTargetReference
  tls : RouteTLSConfig
  wildcardPolicy : String
  deriving DecidableEq, Repr

structure Route where
  name : String
  nspace : String
  labels : SMap
  annotations : SMap
  spec : RouteSpec
  deriving DecidableEq, Repr

inductive RouteError where
  /-- `ErrNoValidLoadbalancerDomain`. -/
  | noValidLoadbalancerDomain : RouteError
  /-- `fmt.Errorf("incorrect HTTPOption annotation: " + annotation)`. -/
  | incorrectHTTPOption (value : String) : RouteError
  deriving DecidableEq, Repr

/-! ## The route-translation functions -/

/-- One split step of Go's `strings.Split(s, ".")`: walk the characters,
cutting at every dot. -/
def splitDotAux : List Char → List Char → List String
  | [], cur => [String.mk cur.reverse]
  | c :: rest, cur =>
      if c = '.' then String.mk cur.reverse :: splitDotAux rest []
      else splitDotAux rest (c :: cur)

/-- Go's `strings.Split(s, ".")` (`""` yields `[""]`, `n` dots yield
`n + 1` pieces). -/
def goSplitDot (s : String) : List String := splitDotAux s.data []

/-- `strings.ToLower`, modelled for ASCII (the Unicode special folds the
Go library additionally performs are outside every string this code
compares against). -/
def goToLower (s : String) : String := String.mk (s.data.map Char.toLower)

/-- `routeName`'s helper `hashHost`: Go slices the 64-character hex digest
string to its first 6 bytes; the digest is ASCII, so that is its first 6
characters. -/
def hashHost (host : String) : String :=
  String.mk ((hexOfBytes (sha256Bytes (utf8Bytes host))).data.take 6)

/-- `routeName`: `fmt.Sprintf("route-%s-%x", uid, hashHost(host))`.  The
`%x` verb receives a string and therefore hex-dumps its bytes. -/
def routeName (uid host : String) : String :=
  "route-" ++ uid ++ "-" ++ goHexOfString (hashHost host)

/-- The load-balancer scan of `makeRoute`: every matching entry overwrites
`(serviceName, namespace)`, so the last match wins. -/
def lbScan : List LBIngressStatus → String × String → String × String
  | [], acc => acc
  | lb :: rest, acc =>
      let acc' :=
        if lb.domainInternal ≠ "" then
          let parts := goSplitDot lb.domainInternal
          if parts.length > 2 ∧ parts.getD 2 "" = "svc" then
            (parts.getD 0 "", parts.getD 1 "")
          else acc
        else acc
      lbScan rest acc'

def lbTarget (plb : Option (List LBIngressStatus)) : String × String :=
  match plb with
  | none => ("", "")
  | some entries => lbScan entries ("", "")

/-- `makeRoute`.  Because Go's `ci.GetAnnotations()` returns the ingress's
own map, the write of the timeout annotation mutates the ingress; the
result therefore carries the post-call ingress alongside Go's
`(*routev1.Route, error)` pair. -/
def makeRoute (ci : Ingress) (host : String) (rule : IngressRule) :
    Ingress × Option Route × Option RouteError :=
  let annotations0 := ci.annotations.getD []
  if rule.visibility = visibilityClusterLocal then (ci, none, none)
  else if smapHas annotations0 DisableRouteAnnotationKey then (ci, none, none)
  else
    let annotations := smapInsert annotations0 TimeoutAnnotationKey DefaultTimeout
    let ci := if ci.annotations.isSome then { ci with annotations := some annotations } else ci
    let labels := unionMaps ci.labels
      [(IngressLabelKey, ci.name),
       (OpenShiftIngressLabelKey, ci.name),
       (OpenShiftIngressNamespaceLabelKey, ci.nspace)]
    let rname := routeName ci.uid host
    let target := lbTarget ci.publicLoadBalancer
    if target.1 = "" ∨ target.2 = "" then (ci, none, some .noValidLoadbalancerDomain)
    else
      let policy0 :=
        if ci.httpOption = httpOptionRedirected then edgePolicyRedirect else edgePolicyAllow
      let annVal := smapGet annotations HTTPOptionKey
      let policyOrErr : Except RouteError String :=
        if annVal ≠ "" then
          let lower := goToLower annVal
          if lower = "enabled" then .ok edgePolicyAllow
          else if lower = "redirected" then .ok edgePolicyRedirect
          else .error (.incorrectHTTPOption annVal)
        else .ok policy0
      match policyOrErr with
      | .error e => (ci, none, some e)
      | .ok policy =>
          let route : Route :=
            { name := rname
              nspace := target.2
              labels := labels
              annotations := annotations
              spec :=
                { host := host
                  port := ⟨HTTPPort⟩
                  toRef := ⟨"Service", target.1, 100⟩
                  tls := ⟨tlsTerminationEdge, policy⟩
                  wildcardPolicy := wildcardPolicyNone } }
          let route :=
            if smapHas annotations EnablePassthroughRouteAnnotationKey ∨ ci.tls.length > 0 then
              { route with
                  spec := { route.spec with
                              port := ⟨HTTPSPort⟩
                              tls := ⟨tlsTerminationPassthrough, edgePolicyRedirect⟩ } }
            else route
          (ci, some route, none)

/-- The host classification of the `MakeRoutes` inner loop. -/
def routableHost (host : String) : Bool :=
  let parts := goSplitDot host
  parts.length == 2 || (decide (parts.length > 2) && (parts.getD 2 "" != "svc"))

def makeRoutesHosts (rule : IngressRule) :
    Ingress → List String → List Route → Ingress × Except RouteError (List Route)
  | ci, [], acc => (ci, .ok acc)
  | ci, h :: hs, acc =>
      if routableHost h then
        let res := makeRoute ci h rule
        match res.2.2 with
        | some e => (res.1, .error e)
        | none =>
            match res.2.1 with
            | none => makeRoutesHosts rule res.1 hs acc
            | some r => makeRoutesHosts rule res.1 hs (acc ++ [r])
      else makeRoutesHosts rule ci hs acc

def makeRoutesRules :
    Ingress → List IngressRule → List Route → Ingress × Except RouteError (List Route)
  | ci, [], acc => (ci, .ok acc)
  | ci, r :: rs, acc =>
      if r.visibility = visibilityClusterLocal then makeRoutesRules ci rs acc
      else
        match makeRoutesHosts r ci r.hosts acc with
        | (ci', .ok acc') => makeRoutesRules ci' rs acc'
        | (ci', .error e) => (ci', .error e)

/-- `MakeRoutes`.  The second and third components mirror Go's
`([]*routev1.Route, error)` return values (`nil` = `none`); the first is
the post-call state of the ingress argument. -/
def MakeRoutes (ci : Ingress) : Ingress × Option (List Route) × Option RouteError :=
  match makeRoutesRules ci ci.rules [] with
  | (ci', .ok rs) => (ci', some rs, none)
  | (ci', .error e) => (ci', none, some e)

/-! ## Derived descriptions used by the theorems -/

/-- The state of the ingress after `makeRoute` has written the timeout
annotation through the aliased map (a no-op when the map was `nil`). -/
def touched (ci : Ingress) : Ingress :=
  match ci.annotations with
  | none => ci
  | some m => { ci with annotations := some (smapInsert m TimeoutAnnotationKey DefaultTimeout) }

/-- The route value `makeRoute` builds once a policy has been decided,
including the passthrough override. -/
def builtRoute (ci : Ingress) (host : String) (policy : String) : Route :=
  let annotations := smapInsert (ci.annotations.getD []) TimeoutAnnotationKey DefaultTimeout
  let labels := unionMaps ci.labels
    [(IngressLabelKey, ci.name),
     (OpenShiftIngressLabelKey, ci.name),
     (OpenShiftIngressNamespaceLabelKey, ci.nspace)]
  let target := lbTarget ci.publicLoadBalancer
  let base : Route :=
    { name := routeName ci.uid host
      nspace := target.2
      labels := labels
      annotations := annotations
      spec :=
        { host := host
          port := ⟨HTTPPort⟩
          toRef := ⟨"Service", target.1, 100⟩
          tls := ⟨tlsTerminationEdge, policy⟩
          wildcardPolicy := wildcardPolicyNone } }
  if smapHas annotations EnablePassthroughRouteAnnotationKey ∨ ci.tls.length > 0 then
    { base with
        spec := { base.spec with
                    port := ⟨HTTPSPort⟩
                    tls := ⟨tlsTerminationPassthrough, edgePolicyRedirect⟩ } }
  else base

/-- The annotation value the legacy HTTP-option check reads. -/
def annGet (ci : Ingress) : String :=
  smapGet (smapInsert (ci.annotations.getD []) TimeoutAnnotationKey DefaultTimeout) HTTPOptionKey

/-- The policy `makeRoute` settles on before the passthrough override,
when it does not fail. -/
def decidedPolicy (ci : Ingress) : String :=
  let annVal := smapGet (smapInsert (ci.annotations.getD []) TimeoutAnnotationKey DefaultTimeout) HTTPOptionKey
  if annVal ≠ "" then
    if goToLower annVal = "enabled" then edgePolicyAllow else edgePolicyRedirect
  else
    if ci.httpOption = httpOptionRedirected then edgePolicyRedirect else edgePolicyAllow

/-- Whether a load-balancer entry is accepted by `makeRoute`'s scan. -/
def lbMatches (lb : LBIngressStatus) : Bool :=
  lb.domainInternal != "" &&
    (decide ((goSplitDot lb.domainInternal).length > 2) &&
      ((goSplitDot lb.domainInternal).getD 2 "" == "svc"))

/-- Service name and namespace read off one load-balancer entry. -/
def lbExtract (lb : LBIngressStatus) : String × String :=
  ((goSplitDot lb.domainInternal).getD 0 "", (goSplitDot lb.domainInternal).getD 1 "")

/-- Target taken from the LAST matching load-balancer entry — the first
match found when walking the reversed list — which is the reading the
code actually implements (the scan keeps overwriting its result). -/
def lastMatchTarget (plb : Option (List LBIngressStatus)) : String × String :=
  match plb with
  | none => ("", "")
  | some entries =>
      match entries.reverse.find? lbMatches with
      | some lb => lbExtract lb
      | none => ("", "")

/-- The condition under which `makeRoute` switches a route to passthrough:
the passthrough annotation on the ingress, or a non-empty TLS block. -/
def passthroughTrigger (ci : Ingress) : Prop :=
  smapHas (ci.annotations.getD []) EnablePassthroughRouteAnnotationKey = true ∨ ci.tls ≠ []

instance (ci : Ingress) : Decidable (passthroughTrigger ci) := by
  unfold passthroughTrigger; infer_instance

/-- The route name as the specification words it: the first 6 hex
characters of the digest appended directly. -/
def routeNameSpec (uid host : String) : String :=
  "route-" ++ uid ++ "-" ++ String.mk ((hexOfBytes (sha256Bytes (utf8Bytes host))).data.take 6)

/-- The rule/host pairs `MakeRoutes` hands to `makeRoute`: hosts of
non-cluster-local rules that pass the label classification, in order. -/
def processedPairs (rules : List IngressRule) : List (IngressRule × String) :=
  rules.foldr
    (fun r acc =>
      if r.visibility = visibilityClusterLocal then acc
      else (r.hosts.filter routableHost).map (fun h => (r, h)) ++ acc)
    []

/-- Reference traversal over an explicit list of rule/host pairs,
threading state and failing fast exactly as the nested loops do. -/
def refLoop : Ingress → List (IngressRule × String) → List Route →
    Ingress × Except RouteError (List Route)
  | ci, [], acc => (ci, .ok acc)
  | ci, (r, h) :: ps, acc =>
      let res := makeRoute ci h r
      match res.2.2 with
      | some e => (res.1, .error e)
      | none =>
          match res.2.1 with
          | none => refLoop res.1 ps acc
          | some rt => refLoop res.1 ps (acc ++ [rt])

/-- Go's `(routes, err)` pair from the loop outcome. -/
def finishRoutes : Ingress × Except RouteError (List Route) →
    Ingress × Option (List Route) × Option RouteError
  | (ci, .ok rs) => (ci, some rs, none)
  | (ci, .error e) => (ci, none, some e)

/-! ## Spec-modelled defaulting engine pieces

The ingress-backend resolver and the monitoring policy are implemented
outside the provided sources; only their tests (`TestReconcile`,
`TestMonitoring`) ship here.  The definitions below are modelled from the
specification and checked against those test tables. -/

/-- `v1alpha1.KourierIngressConfiguration`: the only backend carrying a
service-exposure mode. -/
structure KourierConfig where
  enabled : Bool
  serviceType : String
  deriving DecidableEq, Repr

/-- `v1alpha1.IstioIngressConfiguration`. -/
structure IstioConfig where
  enabled : Bool
  deriving DecidableEq, Repr

/-- `v1alpha1.ContourIngressConfiguration`. -/
structure ContourConfig where
  enabled : Bool
  deriving DecidableEq, Repr

structure IngressConfigs where
  kourier : KourierConfig
  istio : IstioConfig
  contour : ContourConfig
  deriving DecidableEq, Repr

/-- A `Configure(section, key, value)` write into the generic
configuration sections. -/
structure ConfigWrite where
  section_ : String
  key : String
  value : String
  deriving DecidableEq, Repr

/-- Modelled from the spec: the mesh backend's ingress class name. -/
def istioIngressClassName : String := "istio.ingress.networking.knative.dev"

/-- Modelled from the spec: the observability configuration section and
its backend key, with disabled sentinel value `"none"`. -/
def observabilityCMName : String := "observability"

def observabilityBackendKey : String := "metrics.backend-destination"

/-- The number of ingress backends flagged enabled. -/
def enabledCount (cfg : IngressConfigs) : Nat :=
  (if cfg.kourier.enabled then 1 else 0) +
    (if cfg.istio.enabled then 1 else 0) +
    (if cfg.contour.enabled then 1 else 0)

/-- The ingress block of an empty `IngressConfigs` value (all flags at
their zero value). -/
def emptyIngressConfigs : IngressConfigs := ⟨⟨false, ""⟩, ⟨false⟩, ⟨false⟩⟩

/-- The self-heal target: the reference backend enabled with
cluster-internal exposure. -/
def defaultResolvedIngress : IngressConfigs := ⟨⟨true, "ClusterIP"⟩, ⟨false⟩, ⟨false⟩⟩

/-- Modelled from the spec: the IngressResolver algorithm of section 4.4
(its implementation is not among the provided sources; `TestReconcile`
exercises it).  Counts enabled candidates; zero enabled (including an
absent block) self-heals to the reference backend with cluster-internal
exposure; otherwise the enabled reference backend gets a cluster-internal
exposure default, and a mesh-routed active backend forces the network
ingress-class key and the disabled observability sentinel; multi-enable
resolves last-match-wins in declaration order. -/
def resolveIngress (block : Option IngressConfigs) : IngressConfigs × List ConfigWrite :=
  let cfg := block.getD emptyIngressConfigs
  if enabledCount cfg = 0 then (defaultResolvedIngress, [])
  else
    let cfg :=
      if cfg.kourier.enabled ∧ cfg.kourier.serviceType = "" then
        { cfg with kourier := { cfg.kourier with serviceType := "ClusterIP" } }
      else cfg
    let meshActive := cfg.istio.enabled ∧ ¬ cfg.contour.enabled
    let writes :=
      if meshActive then
        [⟨"network", "ingress.class", istioIngressClassName⟩,
         ⟨observabilityCMName, observabilityBackendKey, "none"⟩]
      else []
    (cfg, writes)

/-- Modelled from the spec: the MonitoringPolicy precedence of section 4.5
(its implementation is not among the provided sources; `TestMonitoring`
exercises it).  Input: the explicit observability-backend configuration
value if present, and the tri-state environment toggle.  Output: the
namespace enablement label value and the backend value the resolved spec
carries afterwards. -/
def monitoringPolicy (backend : Option String) (toggle : Option Bool) :
    String × Option String :=
  match backend with
  | some b => (if b = "none" then "false" else "true", some b)
  | none =>
      match toggle with
      | some t => (if t then "true" else "false", if t then none else some "none")
      | none => ("true", none)

/-! ## Concrete fixtures for counterexamples and witnesses -/

/-- An ingress shaped like the spec's section 8 scenario: one external
rule, host `foo.default.example.com`, uid `abc`, redirect HTTP option,
kourier load balancer. -/
def scenarioIngress : Ingress :=
  { name := "ing"
    nspace := "ns"
    uid := "abc"
    labels := []
    annotations := some [("x", "y")]
    rules := [⟨["foo.default.example.com"], "ExternalIP"⟩]
    httpOption := "Redirected"
    tls := []
    publicLoadBalancer := some [⟨"kourier.knative-serving-ingress.svc.cluster.local"⟩] }

/-- Two matching load-balancer entries, to separate first-match from
last-match readings. -/
def twoLBIngress : Ingress :=
  { scenarioIngress with
      publicLoadBalancer :=
        some [⟨"first.one.svc.cluster.local"⟩, ⟨"second.two.svc.cluster.local"⟩] }

/-- The scenario ingress carrying a TLS secret reference. -/
def tlsScenarioIngress : Ingress :=
  { scenarioIngress with tls := [⟨"certsecret", "ns"⟩] }

/-- The scenario ingress with an invalid legacy HTTP-option value. -/
def badAnnIngress : Ingress :=
  { scenarioIngress with
      annotations := some [("networking.knative.dev/http-option", "bogus")] }

/-- The scenario ingress with the disable-route annotation and an empty
load-balancer status. -/
def disabledIngress : Ingress :=
  { scenarioIngress with
      annotations := some [("serving.knative.openshift.io/disableRoute", "true")]
      publicLoadBalancer := some [] }

/-- The scenario ingress with only a cluster-local rule. -/
def allLocalIngress : Ingress :=
  { scenarioIngress with rules := [⟨["foo.default.example.com"], "ClusterLocal"⟩] }

/-! ## Association-list map lemmas -/

theorem smapFind_cons (p : String × String) (rest : SMap) (key : String) :
    smapFind (p :: rest) key = if p.1 = key then some p.2 else smapFind rest key := rfl

theorem smapFind_eq_none_forall {m : SMap} {k : String} (h : smapFind m k = none) :
    ∀ p ∈ m, p.1 ≠ k := by
  induction m with
  | nil => intro p hp; cases hp
  | cons a rest ih =>
      intro p hp
      rw [smapFind_cons] at h
      by_cases ha : a.1 = k
      · rw [if_pos ha] at h; cases h
      · rw [if_neg ha] at h
        rcases List.mem_cons.mp hp with hp | hp
        · subst hp; exact ha
        · exact ih h p hp

theorem smapFind_map_replace (m : SMap) {k k' : String} (v : String) (hne : k' ≠ k) :
    smapFind (m.map (fun p => if p.1 = k then (k, v) else p)) k' = smapFind m k' := by
  induction m with
  | nil => rfl
  | cons a rest ih =>
      rw [List.map_cons, smapFind_cons, smapFind_cons]
      by_cases ha : a.1 = k
      · rw [if_pos ha]
        rw [if_neg (show ¬ ((k, v) : String × String).1 = k' from fun h => hne h.symm)]
        rw [if_neg (show ¬ a.1 = k' from fun h => hne (ha ▸ h).symm)]
        exact ih
      · rw [if_neg ha]
        by_cases hk : a.1 = k'
        · rw [if_pos hk, if_pos hk]
        · rw [if_neg hk, if_neg hk]; exact ih

theorem smapFind_append_single (m : SMap) {k k' : String} (v : String) (hne : k' ≠ k) :
    smapFind (m ++ [(k, v)]) k' = smapFind m k' := by
  induction m with
  | nil =>
      rw [List.nil_append, smapFind_cons]
      rw [if_neg (show ¬ ((k, v) : String × String).1 = k' from fun h => hne h.symm)]
  | cons a rest ih =>
      rw [List.cons_append, smapFind_cons, smapFind_cons]
      by_cases hk : a.1 = k'
      · rw [if_pos hk, if_pos hk]
      · rw [if_neg hk, if_neg hk]; exact ih

theorem smapFind_insert_ne (m : SMap) {k k' : String} (v : String) (hne : k' ≠ k) :
    smapFind (smapInsert m k v) k' = smapFind m k' := by
  rw [smapInsert]
  split
  · exact smapFind_map_replace m v hne
  · exact smapFind_append_single m v hne

theorem smapHas_insert_ne (m : SMap) {k k' : String} (v : String) (hne : k' ≠ k) :
    smapHas (smapInsert m k v) k' = smapHas m k' := by
  rw [smapHas, smapHas, smapFind_insert_ne m v hne]

theorem smapGet_insert_ne (m : SMap) {k k' : String} (v : String) (hne : k' ≠ k) :
    smapGet (smapInsert m k v) k' = smapGet m k' := by
  rw [smapGet, smapGet, smapFind_insert_ne m v hne]

theorem smapFind_map_replace_self {m : SMap} {k : String} (v : String)
    (h : smapHas m k = true) :
    smapFind (m.map (fun p => if p.1 = k then (k, v) else p)) k = some v := by
  induction m with
  | nil => simp [smapHas, smapFind] at h
  | cons a rest ih =>
      rw [List.map_cons, smapFind_cons]
      by_cases ha : a.1 = k
      · rw [if_pos ha]
        rw [if_pos (show ((k, v) : String × String).1 = k from rfl)]
      · rw [if_neg ha]
        rw [if_neg (show ¬ (a : String × String).1 = k from ha)]
        rw [smapHas, smapFind_cons, if_neg ha] at h
        exact ih h

theorem smapFind_none_of_not_has {m : SMap} {k : String} (h : ¬ smapHas m k = true) :
    smapFind m k = none := by
  rw [smapHas] at h
  cases hf : smapFind m k
  · rfl
  · rw [hf] at h; simp at h

theorem smapFind_append_self (m : SMap) (k v : String) (h : smapFind m k = none) :
    smapFind (m ++ [(k, v)]) k = some v := by
  induction m with
  | nil => rw [List.nil_append, smapFind_cons, if_pos rfl]
  | cons a rest ih =>
      rw [smapFind_cons] at h
      rw [List.cons_append, smapFind_cons]
      by_cases ha : a.1 = k
      · rw [if_pos ha] at h; cases h
      · rw [if_neg ha] at h ⊢; exact ih h

theorem smapHas_insert_self (m : SMap) (k v : String) :
    smapHas (smapInsert m k v) k = true := by
  rw [smapHas, smapInsert]
  split
  · rw [smapFind_map_replace_self v (by assumption)]; rfl
  · rename_i h
    rw [smapFind_append_self m k v (smapFind_none_of_not_has h)]
    rfl

theorem smapInsert_idem (m : SMap) (k v : String) :
    smapInsert (smapInsert m k v) k v = smapInsert m k v := by
  have hhas : smapHas (smapInsert m k v) k = true := smapHas_insert_self m k v
  rw [smapInsert, if_pos hhas]
  rw [smapInsert]
  split
  · rw [List.map_map]
    apply List.map_congr_left
    intro p _
    by_cases hp : p.1 = k
    · simp [hp]
    · simp [hp]
  · rename_i h
    have hall : ∀ p ∈ m, p.1 ≠ k := smapFind_eq_none_forall (smapFind_none_of_not_has h)
    rw [List.map_append]
    have hm : m.map (fun p => if p.1 = k then (k, v) else p) = m := by
      refine (List.map_congr_left ?_).trans (List.map_id m)
      intro p hp
      simp [hall p hp]
    rw [hm]
    simp

/-! ## Facts about `touched` and the annotation keys -/

theorem disable_ne_timeout : DisableRouteAnnotationKey ≠ TimeoutAnnotationKey := by decide

theorem httpOptionKey_ne_timeout : HTTPOptionKey ≠ TimeoutAnnotationKey := by decide

theorem passthrough_ne_timeout :
    EnablePassthroughRouteAnnotationKey ≠ TimeoutAnnotationKey := by decide

@[simp] theorem touched_name (ci : Ingress) : (touched ci).name = ci.name := by
  cases h : ci.annotations <;> simp [touched, h]

@[simp] theorem touched_nspace (ci : Ingress) : (touched ci).nspace = ci.nspace := by
  cases h : ci.annotations <;> simp [touched, h]

@[simp] theorem touched_uid (ci : Ingress) : (touched ci).uid = ci.uid := by
  cases h : ci.annotations <;> simp [touched, h]

@[simp] theorem touched_labels (ci : Ingress) : (touched ci).labels = ci.labels := by
  cases h : ci.annotations <;> simp [touched, h]

@[simp] theorem touched_rules (ci : Ingress) : (touched ci).rules = ci.rules := by
  cases h : ci.annotations <;> simp [touched, h]

@[simp] theorem touched_httpOption (ci : Ingress) : (touched ci).httpOption = ci.httpOption := by
  cases h : ci.annotations <;> simp [touched, h]

@[simp] theorem touched_tls (ci : Ingress) : (touched ci).tls = ci.tls := by
  cases h : ci.annotations <;> simp [touched, h]

@[simp] theorem touched_publicLoadBalancer (ci : Ingress) :
    (touched ci).publicLoadBalancer = ci.publicLoadBalancer := by
  cases h : ci.annotations <;> simp [touched, h]

/-- The annotation map `makeRoute` works with, seen from the touched
ingress: inserting the timeout key again is a no-op. -/
theorem touched_insert (ci : Ingress) :
    smapInsert ((touched ci).annotations.getD []) TimeoutAnnotationKey DefaultTimeout =
      smapInsert (ci.annotations.getD []) TimeoutAnnotationKey DefaultTimeout := by
  cases h : ci.annotations with
  | none => simp [touched, h]
  | some m => simp [touched, h, smapInsert_idem]

theorem touched_touched (ci : Ingress) : touched (touched ci) = touched ci := by
  cases h : ci.annotations with
  | none => simp [touched, h]
  | some m => simp [touched, h, smapInsert_idem]

/-- The state update inside `makeRoute` is exactly `touched`. -/
theorem touched_eq (ci : Ingress) :
    (if ci.annotations.isSome then
        { ci with
            annotations :=
              some (smapInsert (ci.annotations.getD []) TimeoutAnnotationKey DefaultTimeout) }
      else ci) = touched ci := by
  cases h : ci.annotations with
  | none => simp [touched, h]
  | some m => simp [touched, h]

/-! ## Branch equations for `makeRoute` -/

theorem makeRoute_clusterLocal (ci : Ingress) (host : String) (rule : IngressRule)
    (hv : rule.visibility = visibilityClusterLocal) :
    makeRoute ci host rule = (ci, none, none) := by
  simp only [makeRoute]
  rw [if_pos hv]

theorem makeRoute_disabled (ci : Ingress) (host : String) (rule : IngressRule)
    (hv : ¬ rule.visibility = visibilityClusterLocal)
    (hd : smapHas (ci.annotations.getD []) DisableRouteAnnotationKey = true) :
    makeRoute ci host rule = (ci, none, none) := by
  simp only [makeRoute]
  rw [if_neg hv, if_pos hd]

theorem makeRoute_noLB (ci : Ingress) (host : String) (rule : IngressRule)
    (hv : ¬ rule.visibility = visibilityClusterLocal)
    (hd : ¬ smapHas (ci.annotations.getD []) DisableRouteAnnotationKey = true)
    (hlb : (lbTarget ci.publicLoadBalancer).1 = "" ∨ (lbTarget ci.publicLoadBalancer).2 = "") :
    makeRoute ci host rule = (touched ci, none, some .noValidLoadbalancerDomain) := by
  have hv' : (rule.visibility = visibilityClusterLocal) = False := eq_false hv
  have hd' : (smapHas (ci.annotations.getD []) DisableRouteAnnotationKey = true) = False :=
    eq_false hd
  have hlb' :
      ((lbTarget ci.publicLoadBalancer).1 = "" ∨ (lbTarget ci.publicLoadBalancer).2 = "") =
        True := eq_true hlb
  simp only [makeRoute, touched_eq, touched_publicLoadBalancer, hv', hd', hlb',
    if_true, if_false]

theorem makeRoute_badAnn (ci : Ingress) (host : String) (rule : IngressRule)
    (hv : ¬ rule.visibility = visibilityClusterLocal)
    (hd : ¬ smapHas (ci.annotations.getD []) DisableRouteAnnotationKey = true)
    (hlb : ¬ ((lbTarget ci.publicLoadBalancer).1 = "" ∨ (lbTarget ci.publicLoadBalancer).2 = ""))
    (h0 : ¬ annGet ci = "")
    (he : ¬ goToLower (annGet ci) = "enabled")
    (hr : ¬ goToLower (annGet ci) = "redirected") :
    makeRoute ci host rule = (touched ci, none, some (.incorrectHTTPOption (annGet ci))) := by
  have hv' : (rule.visibility = visibilityClusterLocal) = False := eq_false hv
  have hd' : (smapHas (ci.annotations.getD []) DisableRouteAnnotationKey = true) = False :=
    eq_false hd
  have hlb' :
      ((lbTarget ci.publicLoadBalancer).1 = "" ∨ (lbTarget ci.publicLoadBalancer).2 = "") =
        False := eq_false hlb
  have h0' : (annGet ci ≠ "") = True := eq_true h0
  have he' : (goToLower (annGet ci) = "enabled") = False := eq_false he
  have hr' : (goToLower (annGet ci) = "redirected") = False := eq_false hr
  rw [annGet] at h0' he' hr'
  simp only [makeRoute, touched_eq, touched_publicLoadBalancer, hv', hd', hlb',
    h0', he', hr', if_true, if_false, annGet]

theorem makeRoute_success (ci : Ingress) (host : String) (rule : IngressRule)
    (hv : ¬ rule.visibility = visibilityClusterLocal)
    (hd : ¬ smapHas (ci.annotations.getD []) DisableRouteAnnotationKey = true)
    (hlb : ¬ ((lbTarget ci.publicLoadBalancer).1 = "" ∨ (lbTarget ci.publicLoadBalancer).2 = ""))
    (hok : annGet ci = "" ∨ goToLower (annGet ci) = "enabled" ∨
      goToLower (annGet ci) = "redirected") :
    makeRoute ci host rule = (touched ci, some (builtRoute ci host (decidedPolicy ci)), none) := by
  have hv' : (rule.visibility = visibilityClusterLocal) = False := eq_false hv
  have hd' : (smapHas (ci.annotations.getD []) DisableRouteAnnotationKey = true) = False :=
    eq_false hd
  have hlb' :
      ((lbTarget ci.publicLoadBalancer).1 = "" ∨ (lbTarget ci.publicLoadBalancer).2 = "") =
        False := eq_false hlb
  rcases hok with h0 | he | hr
  · have h0' : (annGet ci ≠ "") = False := eq_false (by simp [h0])
    rw [annGet] at h0'
    simp only [makeRoute, touched_eq, touched_publicLoadBalancer, touched_labels,
      touched_uid, touched_name, touched_nspace, touched_httpOption, touched_tls,
      hv', hd', hlb', h0', if_true, if_false, builtRoute, decidedPolicy, annGet]
  · by_cases h0 : annGet ci = ""
    · have h0' : (annGet ci ≠ "") = False := eq_false (by simp [h0])
      rw [annGet] at h0'
      simp only [makeRoute, touched_eq, touched_publicLoadBalancer, touched_labels,
        touched_uid, touched_name, touched_nspace, touched_httpOption, touched_tls,
        hv', hd', hlb', h0', if_true, if_false, builtRoute, decidedPolicy, annGet]
    · have h0' : (annGet ci ≠ "") = True := eq_true h0
      have he' : (goToLower (annGet ci) = "enabled") = True := eq_true he
      rw [annGet] at h0' he'
      simp only [makeRoute, touched_eq, touched_publicLoadBalancer, touched_labels,
        touched_uid, touched_name, touched_nspace, touched_httpOption, touched_tls,
        hv', hd', hlb', h0', he', if_true, if_false, builtRoute, decidedPolicy, annGet]
  · by_cases h0 : annGet ci = ""
    · have h0' : (annGet ci ≠ "") = False := eq_false (by simp [h0])
      rw [annGet] at h0'
      simp only [makeRoute, touched_eq, touched_publicLoadBalancer, touched_labels,
        touched_uid, touched_name, touched_nspace, touched_httpOption, touched_tls,
        hv', hd', hlb', h0', if_true, if_false, builtRoute, decidedPolicy, annGet]
    · by_cases he : goToLower (annGet ci) = "enabled"
      · have h0' : (annGet ci ≠ "") = True := eq_true h0
        have he' : (goToLower (annGet ci) = "enabled") = True := eq_true he
        rw [annGet] at h0' he'
        simp only [makeRoute, touched_eq, touched_publicLoadBalancer, touched_labels,
          touched_uid, touched_name, touched_nspace, touched_httpOption, touched_tls,
          hv', hd', hlb', h0', he', if_true, if_false, builtRoute, decidedPolicy, annGet]
      · have h0' : (annGet ci ≠ "") = True := eq_true h0
        have he' : (goToLower (annGet ci) = "enabled") = False := eq_false he
        have hr' : (goToLower (annGet ci) = "redirected") = True := eq_true hr
        rw [annGet] at h0' he' hr'
        simp only [makeRoute, touched_eq, touched_publicLoadBalancer, touched_labels,
          touched_uid, touched_name, touched_nspace, touched_httpOption, touched_tls,
          hv', hd', hlb', h0', he', hr', if_true, if_false, builtRoute, decidedPolicy, annGet]

/-- Every `makeRoute` call either skips (state untouched), fails, or
emits one route (state touched in the latter two cases). -/
theorem makeRoute_cases (ci : Ingress) (host : String) (rule : IngressRule) :
    makeRoute ci host rule = (ci, none, none) ∨
      (∃ e, makeRoute ci host rule = (touched ci, none, some e)) ∨
      (∃ r, makeRoute ci host rule = (touched ci, some r, none)) := by
  by_cases hv : rule.visibility = visibilityClusterLocal
  · exact Or.inl (makeRoute_clusterLocal ci host rule hv)
  · by_cases hd : smapHas (ci.annotations.getD []) DisableRouteAnnotationKey = true
    · exact Or.inl (makeRoute_disabled ci host rule hv hd)
    · by_cases hlb :
          (lbTarget ci.publicLoadBalancer).1 = "" ∨ (lbTarget ci.publicLoadBalancer).2 = ""
      · exact Or.inr (Or.inl ⟨_, makeRoute_noLB ci host rule hv hd hlb⟩)
      · by_cases hok : annGet ci = "" ∨ goToLower (annGet ci) = "enabled" ∨
            goToLower (annGet ci) = "redirected"
        · exact Or.inr (Or.inr ⟨_, makeRoute_success ci host rule hv hd hlb hok⟩)
        · push_neg at hok
          exact Or.inr (Or.inl
            ⟨_, makeRoute_badAnn ci host rule hv hd hlb hok.1 hok.2.1 hok.2.2⟩)

theorem touched_has (ci : Ingress) {k : String} (hk : k ≠ TimeoutAnnotationKey) :
    smapHas ((touched ci).annotations.getD []) k = smapHas (ci.annotations.getD []) k := by
  cases h : ci.annotations with
  | none => simp [touched, h]
  | some m => simp [touched, h, smapHas_insert_ne m _ hk]

theorem annGet_touched (ci : Ingress) : annGet (touched ci) = annGet ci := by
  rw [annGet, annGet, touched_insert]

theorem decidedPolicy_touched (ci : Ingress) : decidedPolicy (touched ci) = decidedPolicy ci := by
  simp only [decidedPolicy, touched_insert, touched_httpOption]

theorem builtRoute_touched (ci : Ingress) (host policy : String) :
    builtRoute (touched ci) host policy = builtRoute ci host policy := by
  simp only [builtRoute, touched_insert, touched_labels, touched_name, touched_nspace,
    touched_uid, touched_publicLoadBalancer, touched_tls]

/-- Running `makeRoute` from the touched state changes nothing further and
returns the same outputs as from the original state. -/
theorem makeRoute_touched (ci : Ingress) (host : String) (rule : IngressRule) :
    makeRoute (touched ci) host rule = (touched ci, (makeRoute ci host rule).2) := by
  by_cases hv : rule.visibility = visibilityClusterLocal
  · rw [makeRoute_clusterLocal (touched ci) host rule hv, makeRoute_clusterLocal ci host rule hv]
  · by_cases hd : smapHas (ci.annotations.getD []) DisableRouteAnnotationKey = true
    · rw [makeRoute_disabled (touched ci) host rule hv (by rw [touched_has ci disable_ne_timeout]; exact hd),
        makeRoute_disabled ci host rule hv hd]
    · have hd_t : ¬ smapHas ((touched ci).annotations.getD []) DisableRouteAnnotationKey = true := by
        rw [touched_has ci disable_ne_timeout]; exact hd
      by_cases hlb :
          (lbTarget ci.publicLoadBalancer).1 = "" ∨ (lbTarget ci.publicLoadBalancer).2 = ""
      · rw [makeRoute_noLB (touched ci) host rule hv hd_t (by rw [touched_publicLoadBalancer]; exact hlb),
          makeRoute_noLB ci host rule hv hd hlb, touched_touched]
      · have hlb_t : ¬ ((lbTarget (touched ci).publicLoadBalancer).1 = "" ∨
            (lbTarget (touched ci).publicLoadBalancer).2 = "") := by
          rw [touched_publicLoadBalancer]; exact hlb
        by_cases hok : annGet ci = "" ∨ goToLower (annGet ci) = "enabled" ∨
            goToLower (annGet ci) = "redirected"
        · rw [makeRoute_success (touched ci) host rule hv hd_t hlb_t
              (by rw [annGet_touched]; exact hok),
            makeRoute_success ci host rule hv hd hlb hok, touched_touched,
            builtRoute_touched, decidedPolicy_touched]
        · push_neg at hok
          rw [makeRoute_badAnn (touched ci) host rule hv hd_t hlb_t
              (by rw [annGet_touched]; exact hok.1)
              (by rw [annGet_touched]; exact hok.2.1)
              (by rw [annGet_touched]; exact hok.2.2),
            makeRoute_badAnn ci host rule hv hd hlb hok.1 hok.2.1 hok.2.2, touched_touched,
            annGet_touched]

/-! ## Loop lemmas -/

theorem hostsLoop_touched (rule : IngressRule) (hs : List String) :
    ∀ ci acc, makeRoutesHosts rule (touched ci) hs acc =
      (touched ci, (makeRoutesHosts rule ci hs acc).2) := by
  induction hs with
  | nil => intro ci acc; rfl
  | cons h hs ih =>
      intro ci acc
      by_cases hr : routableHost h = true
      · rcases makeRoute_cases ci h rule with hc | ⟨e, hc⟩ | ⟨r, hc⟩
        · simp only [makeRoutesHosts, if_pos hr, makeRoute_touched, hc]
          exact ih ci acc
        · simp only [makeRoutesHosts, if_pos hr, makeRoute_touched, hc]
        · simp only [makeRoutesHosts, if_pos hr, makeRoute_touched, hc]
          rw [ih ci (acc ++ [r])]
      · simp only [makeRoutesHosts, if_neg hr]
        exact ih ci acc

theorem hostsLoop_state (rule : IngressRule) (hs : List String) :
    ∀ ci acc, (makeRoutesHosts rule ci hs acc).1 = ci ∨
      (makeRoutesHosts rule ci hs acc).1 = touched ci := by
  induction hs with
  | nil => intro ci acc; exact Or.inl rfl
  | cons h hs ih =>
      intro ci acc
      by_cases hr : routableHost h = true
      · rcases makeRoute_cases ci h rule with hc | ⟨e, hc⟩ | ⟨r, hc⟩
        · simp only [makeRoutesHosts, if_pos hr, hc]
          exact ih ci acc
        · simp only [makeRoutesHosts, if_pos hr, hc]
          right; trivial
        · simp only [makeRoutesHosts, if_pos hr, hc]
          rw [hostsLoop_touched rule hs ci (acc ++ [r])]
          right; trivial
      · simp only [makeRoutesHosts, if_neg hr]
        exact ih ci acc

theorem rulesLoop_touched (rs : List IngressRule) :
    ∀ ci acc, makeRoutesRules (touched ci) rs acc =
      (touched ci, (makeRoutesRules ci rs acc).2) := by
  induction rs with
  | nil => intro ci acc; rfl
  | cons r rs ih =>
      intro ci acc
      by_cases hv : r.visibility = visibilityClusterLocal
      · simp only [makeRoutesRules, if_pos hv]
        exact ih ci acc
      · simp only [makeRoutesRules, if_neg hv, hostsLoop_touched r r.hosts ci acc]
        have hst := hostsLoop_state r r.hosts ci acc
        cases hres : makeRoutesHosts r ci r.hosts acc with
        | mk ci0 x =>
            rw [hres] at hst
            simp only at hst
            cases x with
            | ok acc' =>
                simp only
                rcases hst with hst | hst
                · rw [hst]
                  exact ih ci acc'
                · rw [hst, ih ci acc']
            | error e => rfl

theorem rulesLoop_state (rs : List IngressRule) :
    ∀ ci acc, (makeRoutesRules ci rs acc).1 = ci ∨
      (makeRoutesRules ci rs acc).1 = touched ci := by
  induction rs with
  | nil => intro ci acc; exact Or.inl rfl
  | cons r rs ih =>
      intro ci acc
      by_cases hv : r.visibility = visibilityClusterLocal
      · simp only [makeRoutesRules, if_pos hv]
        exact ih ci acc
      · simp only [makeRoutesRules, if_neg hv]
        have hst := hostsLoop_state r r.hosts ci acc
        cases hres : makeRoutesHosts r ci r.hosts acc with
        | mk ci0 x =>
            rw [hres] at hst
            simp only at hst
            cases x with
            | ok acc' =>
                simp only
                rcases hst with hst | hst
                · rw [hst]
                  exact ih ci acc'
                · rw [hst, rulesLoop_touched rs ci acc']
                  right; rfl
            | error e =>
                simp only
                exact hst

/-! ## `MakeRoutes`-level lemmas -/

theorem MakeRoutes_touched (ci : Ingress) :
    MakeRoutes (touched ci) = (touched ci, (MakeRoutes ci).2) := by
  simp only [MakeRoutes, touched_rules]
  rw [rulesLoop_touched ci.rules ci []]
  cases hres : makeRoutesRules ci ci.rules [] with
  | mk ci0 x => cases x <;> rfl

theorem MakeRoutes_state (ci : Ingress) :
    (MakeRoutes ci).1 = ci ∨ (MakeRoutes ci).1 = touched ci := by
  have hst := rulesLoop_state ci.rules ci []
  simp only [MakeRoutes]
  cases hres : makeRoutesRules ci ci.rules [] with
  | mk ci0 x =>
      rw [hres] at hst
      simp only at hst
      cases x <;> exact hst

theorem MakeRoutes_idem (ci : Ingress) :
    MakeRoutes (MakeRoutes ci).1 = ((MakeRoutes ci).1, (MakeRoutes ci).2) := by
  rcases MakeRoutes_state ci with h | h
  · rw [h]
    exact Prod.ext h rfl
  · rw [h, MakeRoutes_touched ci]

/-- With the disable-route annotation present every `makeRoute` call is a
skip, regardless of the rule. -/
theorem makeRoute_skip_of_disabled (ci : Ingress)
    (hd : smapHas (ci.annotations.getD []) DisableRouteAnnotationKey = true)
    (host : String) (rule : IngressRule) :
    makeRoute ci host rule = (ci, none, none) := by
  by_cases hv : rule.visibility = visibilityClusterLocal
  · exact makeRoute_clusterLocal ci host rule hv
  · exact makeRoute_disabled ci host rule hv hd

theorem hostsLoop_skip (rule : IngressRule) (ci : Ingress)
    (hmr : ∀ h, makeRoute ci h rule = (ci, none, none)) :
    ∀ hs acc, makeRoutesHosts rule ci hs acc = (ci, .ok acc) := by
  intro hs
  induction hs with
  | nil => intro acc; rfl
  | cons h hs ih =>
      intro acc
      by_cases hr : routableHost h = true
      · simp only [makeRoutesHosts, if_pos hr, hmr h]
        exact ih acc
      · simp only [makeRoutesHosts, if_neg hr]
        exact ih acc

theorem rulesLoop_skip (ci : Ingress)
    (hmr : ∀ h rule, makeRoute ci h rule = (ci, none, none)) :
    ∀ rs acc, makeRoutesRules ci rs acc = (ci, .ok acc) := by
  intro rs
  induction rs with
  | nil => intro acc; rfl
  | cons r rs ih =>
      intro acc
      by_cases hv : r.visibility = visibilityClusterLocal
      · simp only [makeRoutesRules, if_pos hv]
        exact ih acc
      · simp only [makeRoutesRules, if_neg hv,
          hostsLoop_skip r ci (fun h => hmr h r) r.hosts acc]
        exact ih acc

/-- No routable host in the list: the inner loop does nothing. -/
theorem hostsLoop_noRoutable (rule : IngressRule) (ci : Ingress) (hs : List String)
    (hnr : ∀ h ∈ hs, ¬ routableHost h = true) :
    ∀ acc, makeRoutesHosts rule ci hs acc = (ci, .ok acc) := by
  induction hs with
  | nil => intro acc; rfl
  | cons h hs ih =>
      intro acc
      simp only [makeRoutesHosts, if_neg (hnr h (List.mem_cons_self h hs))]
      exact ih (fun h' hh => hnr h' (List.mem_cons_of_mem h hh)) acc

/-- If every `makeRoute` on a non-local rule fails with the same error and
some routable host of a non-local rule exists, the whole loop fails with
that error. -/
theorem hostsLoop_err (rule : IngressRule) (ci ciT : Ingress) (e : RouteError)
    (hmr : ∀ h, makeRoute ci h rule = (ciT, none, some e)) (hs : List String)
    (hex : ∃ h ∈ hs, routableHost h = true) :
    ∀ acc, makeRoutesHosts rule ci hs acc = (ciT, .error e) := by
  induction hs with
  | nil => rcases hex with ⟨h, hh, _⟩; cases hh
  | cons h hs ih =>
      intro acc
      by_cases hr : routableHost h = true
      · simp only [makeRoutesHosts, if_pos hr, hmr h]
      · simp only [makeRoutesHosts, if_neg hr]
        rcases hex with ⟨h', hh', hr'⟩
        rcases List.mem_cons.mp hh' with hh' | hh'
        · subst hh'; exact absurd hr' hr
        · exact ih ⟨h', hh', hr'⟩ acc

theorem rulesLoop_err (ci ciT : Ingress) (e : RouteError)
    (hmr : ∀ h rule, ¬ (rule : IngressRule).visibility = visibilityClusterLocal →
      makeRoute ci h rule = (ciT, none, some e)) (rs : List IngressRule)
    (hex : ∃ r ∈ rs, ¬ (r : IngressRule).visibility = visibilityClusterLocal ∧
      ∃ h ∈ r.hosts, routableHost h = true) :
    ∀ acc, makeRoutesRules ci rs acc = (ciT, .error e) := by
  induction rs with
  | nil => rcases hex with ⟨r, hr, _⟩; cases hr
  | cons r rs ih =>
      intro acc
      by_cases hv : r.visibility = visibilityClusterLocal
      · simp only [makeRoutesRules, if_pos hv]
        rcases hex with ⟨r', hr', hv', hh'⟩
        rcases List.mem_cons.mp hr' with hr' | hr'
        · subst hr'; exact absurd hv hv'
        · exact ih ⟨r', hr', hv', hh'⟩ acc
      · simp only [makeRoutesRules, if_neg hv]
        by_cases hh : ∃ h ∈ r.hosts, routableHost h = true
        · rw [hostsLoop_err r ci ciT e (fun h => hmr h r hv) r.hosts hh acc]
        · rw [hostsLoop_noRoutable r ci r.hosts (by push_neg at hh; exact fun h hm => by simp [hh h hm]) acc]
          rcases hex with ⟨r', hr', hv', hh'⟩
          rcases List.mem_cons.mp hr' with hr' | hr'
          · subst hr'; exact absurd hh' hh
          · exact ih ⟨r', hr', hv', hh'⟩ acc

/-! ## Reference traversal equivalence -/

theorem refLoop_hosts (rule : IngressRule) (hs : List String) :
    ∀ ci acc B,
      refLoop ci ((hs.filter routableHost).map (fun h => (rule, h)) ++ B) acc =
        (match makeRoutesHosts rule ci hs acc with
          | (ci', .ok acc') => refLoop ci' B acc'
          | (ci', .error e) => (ci', .error e)) := by
  induction hs with
  | nil => intro ci acc B; rfl
  | cons h hs ih =>
      intro ci acc B
      by_cases hr : routableHost h = true
      · rcases makeRoute_cases ci h rule with hc | ⟨e, hc⟩ | ⟨r, hc⟩
        · simp only [List.filter_cons, if_pos hr, hr, if_true, List.map_cons,
            List.cons_append, refLoop, hc, makeRoutesHosts]
          exact ih ci acc B
        · simp only [List.filter_cons, if_pos hr, hr, if_true, List.map_cons,
            List.cons_append, refLoop, hc, makeRoutesHosts]
        · simp only [List.filter_cons, if_pos hr, hr, if_true, List.map_cons,
            List.cons_append, refLoop, hc, makeRoutesHosts]
          exact ih (touched ci) (acc ++ [r]) B
      · have hr' : routableHost h = false := by
          cases hb : routableHost h
          · rfl
          · exact absurd hb hr
        simp only [List.filter_cons, hr', Bool.false_eq_true, if_false,
          makeRoutesHosts, if_neg hr]
        exact ih ci acc B

theorem refLoop_rules (rs : List IngressRule) :
    ∀ ci acc, makeRoutesRules ci rs acc = refLoop ci (processedPairs rs) acc := by
  induction rs with
  | nil => intro ci acc; rfl
  | cons r rs ih =>
      intro ci acc
      by_cases hv : r.visibility = visibilityClusterLocal
      · simp only [makeRoutesRules, if_pos hv, processedPairs, List.foldr_cons]
        exact ih ci acc
      · simp only [makeRoutesRules, if_neg hv, processedPairs, List.foldr_cons]
        have := refLoop_hosts r r.hosts ci acc
          (rs.foldr
            (fun r acc =>
              if r.visibility = visibilityClusterLocal then acc
              else (r.hosts.filter routableHost).map (fun h => (r, h)) ++ acc)
            [])
        rw [this]
        cases hres : makeRoutesHosts r ci r.hosts acc with
        | mk ci0 x =>
            cases x with
            | ok acc' => exact ih ci0 acc'
            | error e => rfl

/-! ## The load-balancer scan takes the last match -/

theorem lbMatches_iff (lb : LBIngressStatus) :
    lbMatches lb = true ↔
      lb.domainInternal ≠ "" ∧ (goSplitDot lb.domainInternal).length > 2 ∧
        (goSplitDot lb.domainInternal).getD 2 "" = "svc" := by
  simp [lbMatches, and_assoc]

theorem lbScan_cons (lb : LBIngressStatus) (rest : List LBIngressStatus) (acc : String × String) :
    lbScan (lb :: rest) acc =
      lbScan rest (if lbMatches lb = true then lbExtract lb else acc) := by
  by_cases hm : lbMatches lb = true
  · obtain ⟨h1, h2, h3⟩ := (lbMatches_iff lb).mp hm
    simp only [lbScan, if_pos h1, if_pos (And.intro h2 h3), if_pos hm, lbExtract]
  · rw [if_neg hm]
    by_cases h1 : lb.domainInternal = ""
    · simp only [lbScan, if_neg (show ¬ lb.domainInternal ≠ "" from fun hh => hh h1)]
    · have h2 : ¬ ((goSplitDot lb.domainInternal).length > 2 ∧
          (goSplitDot lb.domainInternal).getD 2 "" = "svc") :=
        fun hc => hm ((lbMatches_iff lb).mpr ⟨h1, hc.1, hc.2⟩)
      simp only [lbScan, if_pos (show lb.domainInternal ≠ "" from h1), if_neg h2]

theorem lbScan_lastMatch (entries : List LBIngressStatus) :
    ∀ acc, lbScan entries acc =
      match entries.reverse.find? lbMatches with
      | some lb => lbExtract lb
      | none => acc := by
  induction entries with
  | nil => intro acc; rfl
  | cons lb rest ih =>
      intro acc
      rw [lbScan_cons, ih _, List.reverse_cons, List.find?_append]
      cases hf : rest.reverse.find? lbMatches with
      | some x => rfl
      | none =>
          by_cases hm : lbMatches lb = true
          · simp [List.find?_cons, hm, Option.or, if_pos hm]
          · have hm' : lbMatches lb = false := by
              cases hb : lbMatches lb
              · rfl
              · exact absurd hb hm
            simp [List.find?_cons, hm', Option.or, if_neg hm]

theorem lbTarget_lastMatch (plb : Option (List LBIngressStatus)) :
    lbTarget plb = lastMatchTarget plb := by
  cases plb with
  | none => rfl
  | some entries =>
      simp only [lbTarget, lastMatchTarget, lbScan_lastMatch entries ("", "")]

/-! ## The emitted route value -/

theorem makeRoute_some (ci : Ingress) (host : String) (rule : IngressRule) (r : Route)
    (h : (makeRoute ci host rule).2.1 = some r) :
    r = builtRoute ci host (decidedPolicy ci) := by
  by_cases hv : rule.visibility = visibilityClusterLocal
  · rw [makeRoute_clusterLocal ci host rule hv] at h; simp at h
  · by_cases hd : smapHas (ci.annotations.getD []) DisableRouteAnnotationKey = true
    · rw [makeRoute_disabled ci host rule hv hd] at h; simp at h
    · by_cases hlb :
          (lbTarget ci.publicLoadBalancer).1 = "" ∨ (lbTarget ci.publicLoadBalancer).2 = ""
      · rw [makeRoute_noLB ci host rule hv hd hlb] at h; simp at h
      · by_cases hok : annGet ci = "" ∨ goToLower (annGet ci) = "enabled" ∨
            goToLower (annGet ci) = "redirected"
        · rw [makeRoute_success ci host rule hv hd hlb hok] at h
          simp only at h
          exact (Option.some.inj h).symm
        · push_neg at hok
          rw [makeRoute_badAnn ci host rule hv hd hlb hok.1 hok.2.1 hok.2.2] at h
          simp at h

theorem builtRoute_passthrough (ci : Ingress) (host policy : String)
    (ht : passthroughTrigger ci) :
    (builtRoute ci host policy).spec.tls.termination = tlsTerminationPassthrough ∧
      (builtRoute ci host policy).spec.port.targetPort = HTTPSPort ∧
      (builtRoute ci host policy).spec.tls.insecureEdgeTerminationPolicy = edgePolicyRedirect := by
  have hcond :
      smapHas (smapInsert (ci.annotations.getD []) TimeoutAnnotationKey DefaultTimeout)
          EnablePassthroughRouteAnnotationKey = true ∨ ci.tls.length > 0 := by
    rcases ht with ht | ht
    · left; rw [smapHas_insert_ne _ _ passthrough_ne_timeout]; exact ht
    · right; exact List.length_pos.mpr ht
  simp only [builtRoute, if_pos hcond]
  refine ⟨?_, ?_, ?_⟩ <;> trivial

theorem builtRoute_plain (ci : Ingress) (host policy : String)
    (ht : ¬ passthroughTrigger ci) :
    (builtRoute ci host policy).spec.tls.termination = tlsTerminationEdge ∧
      (builtRoute ci host policy).spec.port.targetPort = HTTPPort ∧
      (builtRoute ci host policy).spec.tls.insecureEdgeTerminationPolicy = policy := by
  have hcond :
      ¬ (smapHas (smapInsert (ci.annotations.getD []) TimeoutAnnotationKey DefaultTimeout)
          EnablePassthroughRouteAnnotationKey = true ∨ ci.tls.length > 0) := by
    intro hc
    apply ht
    rcases hc with hc | hc
    · left; rw [smapHas_insert_ne _ _ passthrough_ne_timeout] at hc; exact hc
    · right; exact List.length_pos.mp hc
  simp only [builtRoute, if_neg hcond]
  refine ⟨?_, ?_, ?_⟩ <;> trivial

theorem builtRoute_fields (ci : Ingress) (host policy : String) :
    (builtRoute ci host policy).name = routeName ci.uid host ∧
      (builtRoute ci host policy).nspace = (lbTarget ci.publicLoadBalancer).2 ∧
      (builtRoute ci host policy).spec.toRef.name = (lbTarget ci.publicLoadBalancer).1 ∧
      (builtRoute ci host policy).spec.host = host := by
  simp only [builtRoute]
  split <;> exact ⟨rfl, rfl, rfl, rfl⟩

/-- The annotation value the legacy check reads is the ingress's own
annotation value (the timeout write cannot alias the HTTP-option key). -/
theorem annGet_eq (ci : Ingress) :
    annGet ci = smapGet (ci.annotations.getD []) HTTPOptionKey := by
  rw [annGet, smapGet_insert_ne _ _ httpOptionKey_ne_timeout]

/-! ## Digest shape -/

theorem processChunk_length (hs ws : List Nat) : (processChunk hs ws).length = 8 := rfl

theorem sha256Chunks_length (hs ws : List Nat) (h : hs.length = 8) :
    (sha256Chunks hs ws).length = 8 := by
  induction hs, ws using sha256Chunks.induct with
  | case1 hs w0 w1 w2 w3 w4 w5 w6 w7 w8 w9 w10 w11 w12 w13 w14 w15 rest ih =>
      rw [sha256Chunks]
      exact ih (processChunk_length _ _)
  | case2 t hs hne =>
      unfold sha256Chunks
      split
      · rename_i w0 w1 w2 w3 w4 w5 w6 w7 w8 w9 w10 w11 w12 w13 w14 w15 rest
        exact (hne w0 w1 w2 w3 w4 w5 w6 w7 w8 w9 w10 w11 w12 w13 w14 w15 rest rfl).elim
      · exact h

theorem flatten_map_be32_length (x : List Nat) :
    ((x.map be32).flatten).length = 4 * x.length := by
  induction x with
  | nil => rfl
  | cons w x ih =>
      simp only [List.map_cons, List.flatten_cons, List.length_append, ih, List.length_cons]
      simp [be32]
      ring

theorem sha256Bytes_length (msg : List Nat) : (sha256Bytes msg).length = 32 := by
  rw [sha256Bytes, flatten_map_be32_length,
    sha256Chunks_length shaInitH (bytesToWords (shaPad msg)) rfl]

theorem sha256Bytes_lt (msg : List Nat) : ∀ b ∈ sha256Bytes msg, b < 256 := by
  intro b hb
  rw [sha256Bytes] at hb
  rcases List.mem_flatten.mp hb with ⟨l, hl, hbl⟩
  rcases List.mem_map.mp hl with ⟨w, _, rfl⟩
  have : ∀ y ∈ be32 w, y < 256 := by
    intro y hy
    simp only [be32, List.mem_cons, List.not_mem_nil, or_false] at hy
    rcases hy with rfl | rfl | rfl | rfl <;>
      exact Nat.lt_succ_of_le Nat.and_le_right
  exact this b hbl

theorem stringFold_data (l : List String) :
    ∀ s : String, (l.foldl (· ++ ·) s).data = s.data ++ (l.map String.data).flatten := by
  induction l with
  | nil => intro s; simp
  | cons a l ih =>
      intro s
      simp only [List.foldl_cons, ih (s ++ a), String.data_append, List.map_cons,
        List.flatten_cons, List.append_assoc]

theorem hexOfBytes_data (bs : List Nat) :
    (hexOfBytes bs).data =
      (bs.map (fun b => [hexDigitChar (b / 16), hexDigitChar (b % 16)])).flatten := by
  have : (hexOfBytes bs).data = ("" : String).data ++ ((bs.map hexByte).map String.data).flatten :=
    stringFold_data (bs.map hexByte) ""
  rw [this]
  simp only [List.map_map]
  rfl

theorem pairs_flatten_length {α β : Type} (f g : α → β) (bs : List α) :
    ((bs.map (fun b => [f b, g b])).flatten).length = 2 * bs.length := by
  induction bs with
  | nil => rfl
  | cons b bs ih =>
      simp only [List.map_cons, List.flatten_cons, List.length_append, ih, List.length_cons]
      simp
      ring

theorem hexDigitChar_mem (n : Nat) (h : n < 16) :
    hexDigitChar n ∈ ("0123456789abcdef".data) := by
  interval_cases n <;> decide

theorem hashHost_length (host : String) : (hashHost host).length = 6 := by
  show ((hexOfBytes (sha256Bytes (utf8Bytes host))).data.take 6).length = 6
  rw [List.length_take, hexOfBytes_data, pairs_flatten_length, sha256Bytes_length]
  decide

theorem hashHost_hexDigits (host : String) :
    ∀ c ∈ (hashHost host).data, c ∈ ("0123456789abcdef".data) := by
  intro c hc
  have hc' : c ∈ (hexOfBytes (sha256Bytes (utf8Bytes host))).data :=
    List.take_subset 6 _ hc
  rw [hexOfBytes_data] at hc'
  rcases List.mem_flatten.mp hc' with ⟨l, hl, hcl⟩
  rcases List.mem_map.mp hl with ⟨b, hb, rfl⟩
  have hblt : b < 256 := sha256Bytes_lt _ b hb
  simp only [List.mem_cons, List.not_mem_nil, or_false] at hcl
  rcases hcl with rfl | rfl
  · exact hexDigitChar_mem _ ((Nat.div_lt_iff_lt_mul (by norm_num)).mpr hblt)
  · exact hexDigitChar_mem _ (Nat.mod_lt b (by norm_num))

/-! ## Decided-policy helpers and remaining plumbing -/

theorem decidedPolicy_empty (ci : Ingress) (h : annGet ci = "") :
    decidedPolicy ci =
      if ci.httpOption = httpOptionRedirected then edgePolicyRedirect else edgePolicyAllow := by
  rw [annGet] at h
  simp only [decidedPolicy, h]
  simp

theorem decidedPolicy_enabled (ci : Ingress) (h0 : ¬ annGet ci = "")
    (he : goToLower (annGet ci) = "enabled") :
    decidedPolicy ci = edgePolicyAllow := by
  rw [annGet] at h0 he
  simp only [decidedPolicy, if_pos h0, he, if_pos rfl]
  simp [h0]

theorem decidedPolicy_redirected (ci : Ingress) (h0 : ¬ annGet ci = "")
    (hr : goToLower (annGet ci) = "redirected") :
    decidedPolicy ci = edgePolicyRedirect := by
  have he : ¬ goToLower (annGet ci) = "enabled" := by
    intro he; rw [he] at hr; exact absurd hr (by decide)
  rw [annGet] at h0 hr he
  simp only [decidedPolicy]
  simp [h0, he]

theorem processedPairs_nil (rs : List IngressRule)
    (hall : ∀ r ∈ rs, r.visibility = visibilityClusterLocal) :
    processedPairs rs = [] := by
  induction rs with
  | nil => rfl
  | cons r rs ih =>
      simp only [processedPairs, List.foldr_cons, if_pos (hall r (List.mem_cons_self r rs))]
      exact ih (fun r' hr => hall r' (List.mem_cons_of_mem r hr))

/-- `MakeRoutes` equals the reference traversal over exactly the
classified rule/host pairs. -/
theorem MakeRoutes_ref (ci : Ingress) :
    MakeRoutes ci = finishRoutes (refLoop ci (processedPairs ci.rules) []) := by
  simp only [MakeRoutes, refLoop_rules ci.rules ci []]
  cases hres : refLoop ci (processedPairs ci.rules) [] with
  | mk ci0 x => cases x <;> rfl

/-! ## Claim theorems -/

/-- C1 counterexample: with two matching load-balancer entries
(`first.one.svc...` before `second.two.svc...`) the emitted route targets
service `second` in namespace `two` — the LAST match — not the first
match `("first", "one")` the claim asserts. -/
theorem claim_C1_counterexample :
    ((MakeRoutes twoLBIngress).2.1.map
        (fun rs => rs.map (fun r => (r.spec.toRef.name, r.nspace)))) =
      some [("second", "two")] ∧
    (("second", "two") : String × String) ≠ ("first", "one") := by decide

/-- C1 (amended): the target service name and namespace of every emitted
route are the first and second dot-labels of the LAST load-balancer entry
whose internal domain has more than two labels with the third literally
`svc` (the scan keeps overwriting its result, so the last match wins). -/
theorem claim_C1 (ci : Ingress) (host : String) (rule : IngressRule) (r : Route)
    (h : (makeRoute ci host rule).2.1 = some r) :
    (r.spec.toRef.name, r.nspace) = lastMatchTarget ci.publicLoadBalancer := by
  have hr := makeRoute_some ci host rule r h
  subst hr
  obtain ⟨-, h2, h3, -⟩ := builtRoute_fields ci host (decidedPolicy ci)
  rw [h2, h3, ← lbTarget_lastMatch]

/-- C1 witness: the amended statement evaluated on the two-entry fixture. -/
theorem claim_C1_witness :
    ((makeRoute twoLBIngress "foo.example.com"
          ⟨["foo.example.com"], "ExternalIP"⟩).2.1.map
        (fun r => (r.spec.toRef.name, r.nspace))) =
      some (lastMatchTarget twoLBIngress.publicLoadBalancer) := by
  cases hm : (makeRoute twoLBIngress "foo.example.com"
      ⟨["foo.example.com"], "ExternalIP"⟩).2.1 with
  | none => exact absurd hm (by decide)
  | some r => exact congrArg some (claim_C1 twoLBIngress "foo.example.com" _ r hm)

/-- C2 counterexample: at uid `abc` and host `foo.default.example.com`
the emitted route is named `route-abc-623439323465`: the `%x` verb
hex-dumps the ASCII bytes of the already-hex `hashHost` output, so the
name is NOT `route-abc-b4924e`, the uid plus the first 6 hex digest
characters that the claim asserts. -/
theorem claim_C2_counterexample :
    ((MakeRoutes scenarioIngress).2.1.map (fun rs => rs.map Route.name)) =
      some ["route-abc-623439323465"] ∧
    routeNameSpec "abc" "foo.default.example.com" = "route-abc-b4924e" ∧
    ("route-abc-623439323465" : String) ≠ "route-abc-b4924e" := by decide

/-- C2 (amended): every emitted route is named
`"route-" ++ uid ++ "-" ++ hex-dump-of-bytes(first 6 hex chars of
sha256(host))` — a 12-hex-character suffix.  The name is a pure function
of uid and host (determinism), and the suffix is determined by
`hashHost host`, a 6-character string over the 16 hex digits, so it still
ranges over at most 16^6 = 2^24 values. -/
theorem claim_C2 (ci : Ingress) (host : String) (rule : IngressRule) (r : Route)
    (h : (makeRoute ci host rule).2.1 = some r) :
    r.name = "route-" ++ ci.uid ++ "-" ++ goHexOfString (hashHost host) ∧
    (hashHost host).length = 6 ∧
    (∀ c ∈ (hashHost host).data, c ∈ ("0123456789abcdef".data)) := by
  have hr := makeRoute_some ci host rule r h
  subst hr
  obtain ⟨h1, -, -, -⟩ := builtRoute_fields ci host (decidedPolicy ci)
  exact ⟨h1, hashHost_length host, hashHost_hexDigits host⟩

/-- C2 witness: the amended statement evaluated on the scenario fixture. -/
theorem claim_C2_witness :
    ((makeRoute scenarioIngress "foo.default.example.com"
          ⟨["foo.default.example.com"], "ExternalIP"⟩).2.1.map Route.name) =
      some ("route-" ++ scenarioIngress.uid ++ "-"
        ++ goHexOfString (hashHost "foo.default.example.com")) := by
  cases hm : (makeRoute scenarioIngress "foo.default.example.com"
      ⟨["foo.default.example.com"], "ExternalIP"⟩).2.1 with
  | none => exact absurd hm (by decide)
  | some r =>
      exact congrArg some (claim_C2 scenarioIngress "foo.default.example.com" _ r hm).1

/-- C3 counterexample: `MakeRoutes` writes the timeout annotation through
the aliased `GetAnnotations()` map, mutating the input ingress: after the
call the scenario ingress's own annotation map has gained the
`haproxy.router.openshift.io/timeout` key. -/
theorem claim_C3_counterexample :
    (MakeRoutes scenarioIngress).1 ≠ scenarioIngress ∧
    smapFind ((MakeRoutes scenarioIngress).1.annotations.getD []) TimeoutAnnotationKey =
      some "600s" ∧
    smapFind (scenarioIngress.annotations.getD []) TimeoutAnnotationKey = none := by decide

/-- C3 (amended): `MakeRoutes` is pure except for one mutation: it may
insert the timeout annotation into the ingress's own non-nil annotation
map.  Nothing else changes (a nil map stays untouched), and the call is
idempotent: invoking it again on the post-call ingress returns the same
ingress state and the same routes/error. -/
theorem claim_C3 (ci : Ingress) :
    ((MakeRoutes ci).1 = { ci with annotations := (MakeRoutes ci).1.annotations }) ∧
    (ci.annotations = none → (MakeRoutes ci).1 = ci) ∧
    (∀ m, ci.annotations = some m →
      (MakeRoutes ci).1.annotations = some m ∨
      (MakeRoutes ci).1.annotations =
        some (smapInsert m TimeoutAnnotationKey DefaultTimeout)) ∧
    MakeRoutes (MakeRoutes ci).1 = ((MakeRoutes ci).1, (MakeRoutes ci).2) := by
  refine ⟨?_, ?_, ?_, MakeRoutes_idem ci⟩
  · rcases MakeRoutes_state ci with h | h <;> rw [h]
    cases hm : ci.annotations with
    | none =>
        simp only [touched, hm]
        first
        | rfl
        | rw [← hm]
    | some m => simp [touched, hm]
  · intro hn
    rcases MakeRoutes_state ci with h | h <;> rw [h]
    simp [touched, hn]
  · intro m hm
    rcases MakeRoutes_state ci with h | h <;> rw [h]
    · left; rw [hm]
    · right; simp [touched, hm]

/-- C3 witness: the amended statement evaluated on the scenario fixture
(non-nil annotations, so the second disjunct of the third part holds). -/
theorem claim_C3_witness :
    (MakeRoutes scenarioIngress).1.annotations = some [("x", "y")] ∨
    (MakeRoutes scenarioIngress).1.annotations =
      some (smapInsert [("x", "y")] TimeoutAnnotationKey DefaultTimeout) :=
  (claim_C3 scenarioIngress).2.2.1 [("x", "y")] (by decide)

/-- Any error reported by the reference traversal is the error of one of
its rule/host pairs (whose `makeRoute` outputs do not depend on whether
the timeout annotation was already written). -/
theorem refLoop_err_source (ps : List (IngressRule × String)) :
    ∀ ci acc e ci', refLoop ci ps acc = (ci', .error e) →
      ∃ p ∈ ps, (makeRoute ci p.2 p.1).2.2 = some e := by
  induction ps with
  | nil => intro ci acc e ci' h; cases h
  | cons p ps ih =>
      intro ci acc e ci' h
      rcases makeRoute_cases ci p.2 p.1 with hc | ⟨e0, hc⟩ | ⟨r, hc⟩
      · simp only [refLoop, hc] at h
        rcases ih ci acc e ci' h with ⟨q, hq, he⟩
        exact ⟨q, List.mem_cons_of_mem p hq, he⟩
      · simp only [refLoop, hc] at h
        refine ⟨p, List.mem_cons_self p ps, ?_⟩
        have h2 : (Except.error e0 : Except RouteError (List Route)) = Except.error e :=
          congrArg Prod.snd h
        have h3 : e0 = e := by injection h2
        rw [hc, h3]
      · simp only [refLoop, hc] at h
        rcases ih (touched ci) (acc ++ [r]) e ci' h with ⟨q, hq, he⟩
        rw [makeRoute_touched ci q.2 q.1] at he
        exact ⟨q, List.mem_cons_of_mem p hq, he⟩

/-- C4: `MakeRoutes` is all-or-nothing — whenever it reports an error the
route list is `nil` (discarding anything accumulated for earlier hosts),
the reported error is the error of one of the processed rule/host pairs,
and whenever it reports no error a (possibly empty) route list is
present. -/
theorem claim_C4 (ci : Ingress) :
    ((MakeRoutes ci).2.2.isSome = true → (MakeRoutes ci).2.1 = none) ∧
    (∀ e, (MakeRoutes ci).2.2 = some e →
      ∃ p ∈ processedPairs ci.rules, (makeRoute ci p.2 p.1).2.2 = some e) ∧
    ((MakeRoutes ci).2.2 = none → ∃ rs, (MakeRoutes ci).2.1 = some rs) := by
  have href := MakeRoutes_ref ci
  refine ⟨?_, ?_, ?_⟩
  · intro h
    rw [href] at h ⊢
    cases hres : refLoop ci (processedPairs ci.rules) [] with
    | mk ci0 x =>
        cases x with
        | ok rs => rw [hres] at h; simp [finishRoutes] at h
        | error e => rfl
  · intro e h
    rw [href] at h
    cases hres : refLoop ci (processedPairs ci.rules) [] with
    | mk ci0 x =>
        rw [hres] at h
        cases x with
        | ok rs => simp [finishRoutes] at h
        | error e0 =>
            simp only [finishRoutes, Option.some.injEq] at h
            subst h
            exact refLoop_err_source (processedPairs ci.rules) ci [] e0 ci0 hres
  · intro h
    rw [href] at h ⊢
    cases hres : refLoop ci (processedPairs ci.rules) [] with
    | mk ci0 x =>
        cases x with
        | ok rs => exact ⟨rs, rfl⟩
        | error e => rw [hres] at h; simp [finishRoutes] at h

/-- C4 witness: a failing call (no valid load-balancer domain) yields a
nil list with the error traced to a processed pair; the succeeding
scenario yields a list. -/
theorem claim_C4_witness :
    (MakeRoutes { scenarioIngress with publicLoadBalancer := some [] }).2.1 = none ∧
    (∃ p ∈ processedPairs { scenarioIngress with publicLoadBalancer := some [] }.rules,
      (makeRoute { scenarioIngress with publicLoadBalancer := some [] } p.2 p.1).2.2 =
        some .noValidLoadbalancerDomain) ∧
    (∃ rs, (MakeRoutes scenarioIngress).2.1 = some rs) :=
  ⟨(claim_C4 { scenarioIngress with publicLoadBalancer := some [] }).1 (by decide),
    (claim_C4 { scenarioIngress with publicLoadBalancer := some [] }).2.1
      .noValidLoadbalancerDomain (by decide),
    (claim_C4 scenarioIngress).2.2 (by decide)⟩

/-- C5: `MakeRoutes` hands to `makeRoute` exactly the hosts of
non-cluster-local rules whose dot-labels number exactly two, or more than
two with the third not `svc` (first conjunct: the whole computation equals
the reference traversal over those pairs, so every other host is skipped
without effect or error); the classification boolean coincides with that
description (second conjunct); and an ingress whose rules are all
cluster-local produces no routes (third conjunct). -/
theorem claim_C5 (ci : Ingress) :
    MakeRoutes ci = finishRoutes (refLoop ci (processedPairs ci.rules) []) ∧
    (∀ h : String, routableHost h = true ↔
      ((goSplitDot h).length = 2 ∨
        ((goSplitDot h).length > 2 ∧ (goSplitDot h).getD 2 "" ≠ "svc"))) ∧
    ((∀ r ∈ ci.rules, r.visibility = visibilityClusterLocal) →
      MakeRoutes ci = (ci, some [], none)) := by
  refine ⟨MakeRoutes_ref ci, ?_, ?_⟩
  · intro h
    simp [routableHost]
  · intro hall
    rw [MakeRoutes_ref ci, processedPairs_nil ci.rules hall]
    rfl

/-- C5 witness: the all-cluster-local fixture yields the empty route list
and no error. -/
theorem claim_C5_witness :
    MakeRoutes allLocalIngress = (allLocalIngress, some [], none) :=
  (claim_C5 allLocalIngress).2.2 (by decide)

/-- C6: a TLS secret reference or the passthrough annotation forces every
emitted route to passthrough termination, the https port and redirect
policy, regardless of the HTTP option; without those triggers (and with
no legacy annotation) the route is edge-terminated on the http2 port with
policy allow, switched to redirect exactly when the ingress HTTP option
is `Redirected`. -/
theorem claim_C6 (ci : Ingress) (host : String) (rule : IngressRule) (r : Route)
    (h : (makeRoute ci host rule).2.1 = some r) :
    (passthroughTrigger ci →
      r.spec.tls.termination = tlsTerminationPassthrough ∧
      r.spec.port.targetPort = HTTPSPort ∧
      r.spec.tls.insecureEdgeTerminationPolicy = edgePolicyRedirect) ∧
    (¬ passthroughTrigger ci →
      smapGet (ci.annotations.getD []) HTTPOptionKey = "" →
      r.spec.tls.termination = tlsTerminationEdge ∧
      r.spec.port.targetPort = HTTPPort ∧
      r.spec.tls.insecureEdgeTerminationPolicy =
        (if ci.httpOption = httpOptionRedirected then edgePolicyRedirect
          else edgePolicyAllow)) := by
  have hr := makeRoute_some ci host rule r h
  subst hr
  refine ⟨fun ht => builtRoute_passthrough ci host _ ht, fun ht hempty => ?_⟩
  obtain ⟨h1, h2, h3⟩ := builtRoute_plain ci host _ ht
  refine ⟨h1, h2, ?_⟩
  rw [h3, decidedPolicy_empty ci (by rw [annGet_eq]; exact hempty)]

/-- C6 witness: passthrough fields on the TLS fixture, default fields on
the plain scenario (whose HTTP option is `Redirected`). -/
theorem claim_C6_witness :
    ((makeRoute tlsScenarioIngress "foo.default.example.com"
          ⟨["foo.default.example.com"], "ExternalIP"⟩).2.1.map
        (fun r => (r.spec.tls.termination, r.spec.port.targetPort,
          r.spec.tls.insecureEdgeTerminationPolicy))) =
      some (tlsTerminationPassthrough, HTTPSPort, edgePolicyRedirect) ∧
    ((makeRoute scenarioIngress "foo.default.example.com"
          ⟨["foo.default.example.com"], "ExternalIP"⟩).2.1.map
        (fun r => (r.spec.tls.termination, r.spec.port.targetPort,
          r.spec.tls.insecureEdgeTerminationPolicy))) =
      some (tlsTerminationEdge, HTTPPort, edgePolicyRedirect) := by
  constructor
  · cases hm : (makeRoute tlsScenarioIngress "foo.default.example.com"
        ⟨["foo.default.example.com"], "ExternalIP"⟩).2.1 with
    | none => exact absurd hm (by decide)
    | some r =>
        obtain ⟨a, b, c⟩ :=
          (claim_C6 tlsScenarioIngress "foo.default.example.com" _ r hm).1 (by decide)
        refine congrArg some ?_
        show (r.spec.tls.termination, r.spec.port.targetPort,
          r.spec.tls.insecureEdgeTerminationPolicy) = _
        rw [a, b, c]
  · cases hm : (makeRoute scenarioIngress "foo.default.example.com"
        ⟨["foo.default.example.com"], "ExternalIP"⟩).2.1 with
    | none => exact absurd hm (by decide)
    | some r =>
        obtain ⟨a, b, c⟩ :=
          (claim_C6 scenarioIngress "foo.default.example.com" _ r hm).2
            (by decide) (by decide)
        refine congrArg some ?_
        show (r.spec.tls.termination, r.spec.port.targetPort,
          r.spec.tls.insecureEdgeTerminationPolicy) = _
        rw [a, b, c]
        decide

/-- C7: a non-empty legacy HTTP-option annotation re-derives the policy —
`enabled` (case-insensitive) gives allow (when no passthrough trigger
overrides it), `redirected` gives redirect, and any other value makes
`makeRoute` fail with the incorrect-HTTPOption error, which aborts the
whole `MakeRoutes` call with a nil route list. -/
theorem claim_C7 (ci : Ingress) (v : String)
    (hv : smapGet (ci.annotations.getD []) HTTPOptionKey = v)
    (hne : v ≠ "")
    (hd : ¬ smapHas (ci.annotations.getD []) DisableRouteAnnotationKey = true)
    (hlb : ¬ ((lbTarget ci.publicLoadBalancer).1 = "" ∨
      (lbTarget ci.publicLoadBalancer).2 = "")) :
    (goToLower v = "enabled" →
      ∀ host rule, ¬ (rule : IngressRule).visibility = visibilityClusterLocal →
        ∃ r, (makeRoute ci host rule).2.1 = some r ∧
          (¬ passthroughTrigger ci →
            r.spec.tls.insecureEdgeTerminationPolicy = edgePolicyAllow)) ∧
    (goToLower v = "redirected" →
      ∀ host rule, ¬ (rule : IngressRule).visibility = visibilityClusterLocal →
        ∃ r, (makeRoute ci host rule).2.1 = some r ∧
          r.spec.tls.insecureEdgeTerminationPolicy = edgePolicyRedirect) ∧
    (goToLower v ≠ "enabled" → goToLower v ≠ "redirected" →
      (∀ host rule, ¬ (rule : IngressRule).visibility = visibilityClusterLocal →
        makeRoute ci host rule = (touched ci, none, some (.incorrectHTTPOption v))) ∧
      ((∃ rule ∈ ci.rules, ¬ (rule : IngressRule).visibility = visibilityClusterLocal ∧
          ∃ h ∈ rule.hosts, routableHost h = true) →
        MakeRoutes ci = (touched ci, none, some (.incorrectHTTPOption v)))) := by
  have hag : annGet ci = v := by rw [annGet_eq, hv]
  have h0 : ¬ annGet ci = "" := by rw [hag]; exact hne
  refine ⟨?_, ?_, ?_⟩
  · intro he host rule hloc
    have hok : annGet ci = "" ∨ goToLower (annGet ci) = "enabled" ∨
        goToLower (annGet ci) = "redirected" :=
      Or.inr (Or.inl (by rw [hag]; exact he))
    refine ⟨builtRoute ci host (decidedPolicy ci), ?_, ?_⟩
    · rw [makeRoute_success ci host rule hloc hd hlb hok]
    · intro ht
      obtain ⟨-, -, h3⟩ := builtRoute_plain ci host (decidedPolicy ci) ht
      rw [h3, decidedPolicy_enabled ci h0 (by rw [hag]; exact he)]
  · intro hre host rule hloc
    have hok : annGet ci = "" ∨ goToLower (annGet ci) = "enabled" ∨
        goToLower (annGet ci) = "redirected" :=
      Or.inr (Or.inr (by rw [hag]; exact hre))
    refine ⟨builtRoute ci host (decidedPolicy ci), ?_, ?_⟩
    · rw [makeRoute_success ci host rule hloc hd hlb hok]
    · by_cases ht : passthroughTrigger ci
      · exact (builtRoute_passthrough ci host _ ht).2.2
      · obtain ⟨-, -, h3⟩ := builtRoute_plain ci host _ ht
        rw [h3, decidedPolicy_redirected ci h0 (by rw [hag]; exact hre)]
  · intro he hre
    have hmr : ∀ host rule, ¬ (rule : IngressRule).visibility = visibilityClusterLocal →
        makeRoute ci host rule = (touched ci, none, some (.incorrectHTTPOption v)) := by
      intro host rule hloc
      have heq := makeRoute_badAnn ci host rule hloc hd hlb h0
        (by rw [hag]; exact he) (by rw [hag]; exact hre)
      rw [heq, hag]
    refine ⟨hmr, fun hex => ?_⟩
    simp only [MakeRoutes]
    rw [rulesLoop_err ci (touched ci) (.incorrectHTTPOption v)
      (fun h rule hloc => hmr h rule hloc) ci.rules hex []]

/-- C7 witness: the `bogus` annotation value aborts the whole call on the
fixture with a valid load balancer and one routable host. -/
theorem claim_C7_witness :
    MakeRoutes badAnnIngress =
      (touched badAnnIngress, none, some (.incorrectHTTPOption "bogus")) :=
  ((claim_C7 badAnnIngress "bogus" (by decide) (by decide) (by decide) (by decide)).2.2
    (by decide) (by decide)).2 (by decide)

/-- C10: with the disable-route annotation present, `MakeRoutes` returns
the empty route list and no error — even with no valid load-balancer
domain — because the per-host disable check short-circuits before the
load-balancer validation (and before the timeout-annotation write, so the
ingress is returned unchanged). -/
theorem claim_C10 (ci : Ingress)
    (hd : smapHas (ci.annotations.getD []) DisableRouteAnnotationKey = true) :
    MakeRoutes ci = (ci, some [], none) := by
  simp only [MakeRoutes]
  rw [rulesLoop_skip ci (fun h rule => makeRoute_skip_of_disabled ci hd h rule) ci.rules []]

/-- C10 witness: the disabled fixture has an EMPTY load-balancer status —
the same ingress without the annotation fails with
`NoValidLoadbalancerDomain` — yet the call succeeds with no routes. -/
theorem claim_C10_witness :
    MakeRoutes disabledIngress = (disabledIngress, some [], none) :=
  claim_C10 disabledIngress (by decide)

/-- C8: zero enabled ingress backends — an absent block or all three
candidates explicitly disabled — self-heals to exactly the reference
backend (Kourier) enabled with cluster-internal (ClusterIP) exposure. -/
theorem claim_C8 (block : Option IngressConfigs)
    (h : block = none ∨ ∃ cfg, block = some cfg ∧ cfg.kourier.enabled = false ∧
      cfg.istio.enabled = false ∧ cfg.contour.enabled = false) :
    (resolveIngress block).1 = defaultResolvedIngress := by
  have hcount : enabledCount (block.getD emptyIngressConfigs) = 0 := by
    rcases h with rfl | ⟨cfg, rfl, h1, h2, h3⟩
    · rfl
    · simp [enabledCount, h1, h2, h3]
  simp [resolveIngress, hcount]

/-- C8 witness: the `TestReconcile` "fix wrong ingress config" input —
all three backends explicitly disabled. -/
theorem claim_C8_witness :
    (resolveIngress (some ⟨⟨false, ""⟩, ⟨false⟩, ⟨false⟩⟩)).1 = defaultResolvedIngress :=
  claim_C8 _ (Or.inr ⟨_, rfl, rfl, rfl, rfl⟩)

/-- The spec-modelled resolver reproduces the ingress rows of
`TestReconcile`: "all nil", "default kourier service type", "override
kourier service type", "override ingress config" (Istio) and "respect
kourier settings". -/
theorem resolveIngress_matches_reconcile_tests :
    (resolveIngress none).1 = defaultResolvedIngress ∧
    resolveIngress (some ⟨⟨true, ""⟩, ⟨false⟩, ⟨false⟩⟩) =
      (⟨⟨true, "ClusterIP"⟩, ⟨false⟩, ⟨false⟩⟩, []) ∧
    resolveIngress (some ⟨⟨true, "LoadBalancer"⟩, ⟨false⟩, ⟨false⟩⟩) =
      (⟨⟨true, "LoadBalancer"⟩, ⟨false⟩, ⟨false⟩⟩, []) ∧
    resolveIngress (some ⟨⟨false, ""⟩, ⟨true⟩, ⟨false⟩⟩) =
      (⟨⟨false, ""⟩, ⟨true⟩, ⟨false⟩⟩,
        [⟨"network", "ingress.class", istioIngressClassName⟩,
          ⟨observabilityCMName, observabilityBackendKey, "none"⟩]) ∧
    resolveIngress (some ⟨⟨false, "ClusterIP"⟩, ⟨false⟩, ⟨false⟩⟩) =
      (defaultResolvedIngress, []) := by decide

/-- C9: the monitoring precedence — an explicit backend wins and sets the
label to `"false"` exactly when it is the `"none"` sentinel; otherwise an
explicitly set toggle decides the label, writing the sentinel backend
only when the toggle is false; with neither set, the label is `"true"`
and the backend stays unset. -/
theorem claim_C9 (backend : Option String) (toggle : Option Bool) :
    (∀ b, backend = some b →
      monitoringPolicy backend toggle =
        (if b = "none" then "false" else "true", some b)) ∧
    (backend = none → ∀ t, toggle = some t →
      monitoringPolicy backend toggle =
        (if t then "true" else "false", if t then none else some "none")) ∧
    (backend = none → toggle = none → monitoringPolicy backend toggle = ("true", none)) := by
  refine ⟨?_, ?_, ?_⟩
  · intro b hb; subst hb; rfl
  · intro hb t ht; subst hb; subst ht; rfl
  · intro hb ht; subst hb; subst ht; rfl

/-- C9 witness: the three precedence rows evaluated concretely. -/
theorem claim_C9_witness :
    monitoringPolicy (some "none") (some true) = ("false", some "none") ∧
    monitoringPolicy none (some false) = ("false", some "none") ∧
    monitoringPolicy none none = ("true", none) :=
  ⟨by have h := (claim_C9 (some "none") (some true)).1 "none" rfl; simpa using h,
    by have h := (claim_C9 none (some false)).2.1 rfl false rfl; simpa using h,
    (claim_C9 none none).2.2 rfl rfl⟩

/-- The spec-modelled monitoring policy reproduces all nine rows of
`TestMonitoring` (label = the test's `shouldEnableMonitoring`, backend =
the expected written configuration). -/
theorem monitoringPolicy_matches_monitoring_tests :
    monitoringPolicy none none = ("true", none) ∧
    monitoringPolicy (some "prometheus") none = ("true", some "prometheus") ∧
    monitoringPolicy (some "none") none = ("false", some "none") ∧
    monitoringPolicy none (some true) = ("true", none) ∧
    monitoringPolicy (some "prometheus") (some true) = ("true", some "prometheus") ∧
    monitoringPolicy (some "none") (some true) = ("false", some "none") ∧
    monitoringPolicy none (some false) = ("false", some "none") ∧
    monitoringPolicy (some "prometheus") (some false) = ("true", some "prometheus") ∧
    monitoringPolicy (some "none") (some false) = ("false", some "none") := by decide

end ServerlessOp

